import Mathlib

/-!
Verification development for the flowmon nftables counter compiler/decoder
and its reconciler.

The definitions below are a shallow embedding of the Go source:
* `types` package: `TcpFlag`, `TcpFlagsToByte`, `TcpFlagsFromByte`,
  `Protocol` constants, `types.Counter` / `types.Counters`;
* `nft` package: `marshalRule` (the compiler), `unmarshalRule` and the
  `ruleUnmarshaler` methods (the decoder), `getOrCreateTable` /
  `getOrCreateChain` / `setupChain` / `Setup` / `ListCounters` (named
  `ListRules` in one revision of the source) / `Cleanup`.

Machine integers are modelled as `Nat` (Go's byte slices become
`List Nat`); `netip.Addr` becomes the inductive `Addr`; the netlink
kernel state becomes the explicit `Kernel` structure, with the staged
messages of the `nftables.Conn` modelled as an `Op` list applied by
`commit` (the model of `conn.Flush()`).
-/

namespace Flowmon

/-! ### types package: TCP flags, protocols, addresses, counters -/

/-- Go `types.TcpFlag` (a `uint8` with eight named constants). -/
inductive TcpFlag where
  | fin | syn | rst | psh | ack | urg | ece | cwr
deriving DecidableEq, Repr, Fintype

/-- The byte value of each flag constant (`TcpFlagFIN = 0x01`, ...). -/
def TcpFlag.toByte : TcpFlag → Nat
  | .fin => 0x01
  | .syn => 0x02
  | .rst => 0x04
  | .psh => 0x08
  | .ack => 0x10
  | .urg => 0x20
  | .ece => 0x40
  | .cwr => 0x80

/-- The fixed iteration order used by Go `TcpFlagsFromByte`. -/
def allTcpFlags : List TcpFlag :=
  [.fin, .syn, .rst, .psh, .ack, .urg, .ece, .cwr]

/-- Go `types.TcpFlagsFromByte`: collect the flags whose bit is set, in the
fixed order FIN, SYN, RST, PSH, ACK, URG, ECE, CWR. -/
def TcpFlagsFromByte (b : Nat) : List TcpFlag :=
  allTcpFlags.filter (fun f => b &&& f.toByte != 0)

/-- Go `types.TcpFlagsToByte`: OR together the byte values of the flags. -/
def TcpFlagsToByte (flags : List TcpFlag) : Nat :=
  flags.foldl (fun b f => b ||| f.toByte) 0

/-- `unix.IPPROTO_TCP` / Go `types.ProtocolTCP`. -/
def protocolTCP : Nat := 6
/-- `unix.IPPROTO_UDP` / Go `types.ProtocolUDP`. -/
def protocolUDP : Nat := 17
/-- `unix.IPPROTO_ICMP` / Go `types.ProtocolICMP`. -/
def protocolICMP : Nat := 1
/-- `unix.IPPROTO_ICMPV6` / Go `types.ProtocolICMPv6`. -/
def protocolICMPv6 : Nat := 58

/-- Model of `netip.Addr`: the zero value is invalid, otherwise an IPv4
address holds 4 bytes and an IPv6 address 16 bytes (`AsSlice`). -/
inductive Addr where
  | invalid
  | v4 (bytes : List Nat)
  | v6 (bytes : List Nat)
deriving DecidableEq, Repr

/-- `netip.Addr.IsValid`. -/
def Addr.isValid : Addr → Bool
  | .invalid => false
  | _ => true

/-- `netip.Addr.Is6`. -/
def Addr.is6 : Addr → Bool
  | .v6 _ => true
  | _ => false

/-- `netip.Addr.AsSlice`. -/
def Addr.asSlice : Addr → List Nat
  | .invalid => []
  | .v4 bs => bs
  | .v6 bs => bs

/-- `netip.AddrFromSlice`: ok for 4- or 16-byte slices only. -/
def addrFromSlice (d : List Nat) : Option Addr :=
  if d.length = 4 then some (.v4 d)
  else if d.length = 16 then some (.v6 d)
  else none

/-- Shape well-formedness of a modelled address: the byte list has the
length that `netip` guarantees for the corresponding kind. -/
def Addr.wf : Addr → Prop
  | .invalid => True
  | .v4 bs => bs.length = 4
  | .v6 bs => bs.length = 16

/-- Go `types.Counter` (one declared counter specification; the struct
zero value has empty label, zero ports, nil flags, zero protocol, invalid
addresses, empty direction and zero counters). -/
structure Counter where
  label : String := ""
  srcPort : Nat := 0
  dstPort : Nat := 0
  tcpFlags : List TcpFlag := []
  protocol : Nat := 0
  srcAddr : Addr := .invalid
  dstAddr : Addr := .invalid
  dir : String := ""
  packets : Nat := 0
  bytes : Nat := 0
deriving DecidableEq, Repr

/-- Go `types.Counters`: ordered input- and output-direction specs. -/
structure Counters where
  input : List Counter := []
  output : List Counter := []
deriving DecidableEq, Repr

/-! ### Expression model (`github.com/google/nftables/expr`) -/

/-- `expr.PayloadBaseNetworkHeader` / `expr.PayloadBaseTransportHeader`. -/
inductive PayloadBase where
  | network
  | transport
deriving DecidableEq, Repr

/-- `expr.MetaKeyL4PROTO` (`NFT_META_L4PROTO`). -/
def metaKeyL4PROTO : Nat := 16

/-- `expr.CmpOpEq`. -/
def cmpOpEq : Nat := 0

/-- The expression vocabulary used by the rules.  `verdict` stands for any
`expr.Any` outside the five types the decoder recognises (the `default`
case of `unmarshalExpr`'s type switch). -/
inductive Expr where
  | meta (key : Nat) (register : Nat)
  | payload (destRegister : Nat) (base : PayloadBase) (offset : Nat) (len : Nat)
  | cmp (op : Nat) (register : Nat) (data : List Nat)
  | bitwise (destRegister : Nat) (sourceRegister : Nat) (len : Nat)
      (mask : List Nat) (xorMask : List Nat)
  | counter (packets : Nat) (bytes : Nat)
  | verdict
deriving DecidableEq, Repr

/-- `nftables.Rule`: expression sequence plus the userdata comment
(`userdata.GetString(rule.UserData, userdata.TypeComment)` modelled as an
`Option String`); table and chain are carried by name. -/
structure Rule where
  table : String
  chain : String
  exprs : List Expr
  comment : Option String
deriving DecidableEq, Repr

/-! ### Compiler (`marshalRule` in rule.go) -/

/-- `binaryutil.BigEndian.PutUint16`. -/
def bePutUint16 (p : Nat) : List Nat := [p / 256 % 256, p % 256]

/-- `binaryutil.BigEndian.Uint16` (on a length-2 byte slice). -/
def beUint16 : List Nat → Nat
  | a :: b :: _ => 256 * a + b
  | _ => 0

/-- Source-address predicate group of Go `marshalRule`: emitted only when
`counter.SrcAddr.IsValid()`, with IPv4 length 4 / offset 12 and IPv6
length 16 / offset 8, then a compare against the raw address bytes. -/
def srcAddrSeg (c : Counter) : List Expr :=
  if c.srcAddr.isValid then
    [.payload 1 .network (if c.srcAddr.is6 then 8 else 12)
        (if c.srcAddr.is6 then 16 else 4),
     .cmp cmpOpEq 1 c.srcAddr.asSlice]
  else []

/-- Destination-address predicate group of Go `marshalRule` (IPv4 offset
16, IPv6 offset 24). -/
def dstAddrSeg (c : Counter) : List Expr :=
  if c.dstAddr.isValid then
    [.payload 1 .network (if c.dstAddr.is6 then 24 else 16)
        (if c.dstAddr.is6 then 16 else 4),
     .cmp cmpOpEq 1 c.dstAddr.asSlice]
  else []

/-- Protocol predicate group of Go `marshalRule`: `counter.Protocol > 0`
guards an L4PROTO meta load and a one-byte compare. -/
def protoSeg (c : Counter) : List Expr :=
  if 0 < c.protocol then [.meta metaKeyL4PROTO 1, .cmp cmpOpEq 1 [c.protocol]]
  else []

/-- Source-port predicate group of Go `marshalRule`: emitted only when the
port is nonzero and the protocol is TCP or UDP; 2 bytes at transport
offset 0, compared big-endian. -/
def srcPortSeg (c : Counter) : List Expr :=
  if c.srcPort ≠ 0 ∧ (c.protocol = protocolTCP ∨ c.protocol = protocolUDP) then
    [.payload 1 .transport 0 2, .cmp cmpOpEq 1 (bePutUint16 c.srcPort)]
  else []

/-- Destination-port predicate group of Go `marshalRule` (transport offset
2). -/
def dstPortSeg (c : Counter) : List Expr :=
  if c.dstPort ≠ 0 ∧ (c.protocol = protocolTCP ∨ c.protocol = protocolUDP) then
    [.payload 1 .transport 2 2, .cmp cmpOpEq 1 (bePutUint16 c.dstPort)]
  else []

/-- TCP-flags predicate group of Go `marshalRule`: emitted only when flags
were requested and the protocol is TCP; 1 byte at transport offset 13,
masked by `TcpFlagsToByte(FIN, SYN, RST, ACK)` with xor 0, compared to
`TcpFlagsToByte(counter.TcpFlags...)`. -/
def flagSeg (c : Counter) : List Expr :=
  if c.tcpFlags ≠ [] ∧ c.protocol = protocolTCP then
    [.payload 1 .transport 13 1,
     .bitwise 1 1 1 [TcpFlagsToByte [.fin, .syn, .rst, .ack]] [0x00],
     .cmp cmpOpEq 1 [TcpFlagsToByte c.tcpFlags]]
  else []

/-- The expression list built by Go `marshalRule`: the predicate groups
appended in the source's fixed order, then `Counter{}` last. -/
def marshalExprs (c : Counter) : List Expr :=
  srcAddrSeg c ++ dstAddrSeg c ++ protoSeg c ++ srcPortSeg c ++
    dstPortSeg c ++ flagSeg c ++ [.counter 0 0]

/-- The rule record built by Go `marshalRule`: the expression list with
the spec's label attached as the rule comment. -/
def compiledRule (table chain : String) (c : Counter) : Rule :=
  { table := table, chain := chain, exprs := marshalExprs c,
    comment := some c.label }

/-- Go `marshalRule(table, chain, counter)`: always returns the compiled
rule and a nil error. -/
def marshalRule (table chain : String) (c : Counter) : Except String Rule :=
  .ok (compiledRule table chain c)

/-! ### Decoder (`unmarshalRule` / `ruleUnmarshaler` in rule.go) -/

/-- The `registerType` tags of the decoder. -/
inductive RegisterType where
  | protocol | srcPort | dstPort | tcpFlag | srcAddr | dstAddr
deriving DecidableEq, Repr

/-- Update of the decoder's register map `r.regs[reg] = t`. -/
def regSet (m : Nat → Option RegisterType) (reg : Nat) (t : RegisterType) :
    Nat → Option RegisterType :=
  fun x => if x = reg then some t else m x

/-- The `(base, offset, len)` dispatch of `unmarshalPayload`'s switch:
which semantic tag a supported payload load assigns, `none` for the
`default` (unsupported payload) case. -/
def payloadTag (base : PayloadBase) (offset len : Nat) : Option RegisterType :=
  match base, offset, len with
  | .transport, 0, 2 => some .srcPort
  | .transport, 2, 2 => some .dstPort
  | .transport, 13, 1 => some .tcpFlag
  | .network, 12, 4 => some .srcAddr
  | .network, 16, 4 => some .dstAddr
  | .network, 8, 16 => some .srcAddr
  | .network, 24, 16 => some .dstAddr
  | _, _, _ => none

/-- The mutable state of Go's `ruleUnmarshaler`. -/
structure UnmarshalState where
  counter : Counter
  regs : Nat → Option RegisterType
  hasCounterExpr : Bool

/-- `ruleUnmarshaler.unmarshalMeta`. -/
def unmarshalMeta (s : UnmarshalState) (key register : Nat) :
    Except String UnmarshalState :=
  if key = metaKeyL4PROTO then
    .ok { s with regs := regSet s.regs register .protocol }
  else .error "unsupported meta key"

/-- `ruleUnmarshaler.unmarshalPayload`. -/
def unmarshalPayload (s : UnmarshalState) (destRegister : Nat)
    (base : PayloadBase) (offset len : Nat) : Except String UnmarshalState :=
  match payloadTag base offset len with
  | some t => .ok { s with regs := regSet s.regs destRegister t }
  | none => .error "unsupported payload"

/-- `ruleUnmarshaler.unmarshalCmp`. -/
def unmarshalCmp (s : UnmarshalState) (register : Nat) (data : List Nat) :
    Except String UnmarshalState :=
  match s.regs register with
  | none => .error "unknown register"
  | some .protocol =>
      match data with
      | [b] => .ok { s with counter := { s.counter with protocol := b } }
      | _ => .error "invalid protocol length"
  | some .srcPort =>
      if data.length = 2 then
        .ok { s with counter := { s.counter with srcPort := beUint16 data } }
      else .error "invalid port length"
  | some .dstPort =>
      if data.length = 2 then
        .ok { s with counter := { s.counter with dstPort := beUint16 data } }
      else .error "invalid port length"
  | some .srcAddr =>
      if data.length ≠ 4 ∧ data.length ≠ 16 then .error "invalid address length"
      else
        match addrFromSlice data with
        | none => .error "invalid address"
        | some a => .ok { s with counter := { s.counter with srcAddr := a } }
  | some .dstAddr =>
      if data.length ≠ 4 ∧ data.length ≠ 16 then .error "invalid address length"
      else
        match addrFromSlice data with
        | none => .error "invalid address"
        | some a => .ok { s with counter := { s.counter with dstAddr := a } }
  | some .tcpFlag =>
      match data with
      | [b] => .ok { s with counter := { s.counter with tcpFlags := TcpFlagsFromByte b } }
      | _ => .error "invalid flag length"

/-- `ruleUnmarshaler.unmarshalCounter`. -/
def unmarshalCounter (s : UnmarshalState) (packets bytes : Nat) :
    Except String UnmarshalState :=
  .ok { s with hasCounterExpr := true,
               counter := { s.counter with packets := packets, bytes := bytes } }

/-- `ruleUnmarshaler.unmarshalExpr`: the type switch over the expression
vocabulary; `Bitwise` is ignored, anything else is an unknown expression
type. -/
def unmarshalExpr (s : UnmarshalState) (e : Expr) : Except String UnmarshalState :=
  match e with
  | .meta key register => unmarshalMeta s key register
  | .payload d base offset len => unmarshalPayload s d base offset len
  | .cmp _ register data => unmarshalCmp s register data
  | .counter packets bytes => unmarshalCounter s packets bytes
  | .bitwise _ _ _ _ _ => .ok s
  | .verdict => .error "unknown expression type"

/-- The decoder's loop `for _, e := range rule.Exprs`. -/
def unmarshalExprs (s : UnmarshalState) : List Expr → Except String UnmarshalState
  | [] => .ok s
  | e :: rest => (unmarshalExpr s e).bind (fun s' => unmarshalExprs s' rest)

/-- The initial `ruleUnmarshaler` state (`&types.Counter{}`, empty map). -/
def initState : UnmarshalState :=
  { counter := {}, regs := fun _ => none, hasCounterExpr := false }

/-- Go `unmarshalRule`: run the pass, require a Counter expression and a
comment, attach the comment as the label. -/
def unmarshalRule (rule : Rule) : Except String Counter :=
  (unmarshalExprs initState rule.exprs).bind fun s =>
    if s.hasCounterExpr then
      match rule.comment with
      | some name => .ok { s.counter with label := name }
      | none => .error "rule has no comment"
    else .error "rule has no counter"

/-! ### Kernel-state model and the reconciler (nft.go, helpers.go)

The netlink transport is modelled as an explicit kernel state.  The lazy
`nftables.Conn` stages messages (`AddTable`, `AddChain`, `FlushChain`,
`DelChain`, `AddRule`, `FlushTable`, `DelTable`) that are applied by
`conn.Flush()`; list operations (`ListTableOfFamily`, `ListChain`,
`ResetRules`) query the committed kernel state directly. -/

/-- `nftables.ChainHookInput` (`NF_INET_LOCAL_IN`). -/
def hookInput : Nat := 1
/-- `nftables.ChainHookOutput` (`NF_INET_LOCAL_OUT`). -/
def hookOutput : Nat := 3
/-- `types.TableFamilyIPv4` (`NFPROTO_IPV4`). -/
def tableFamilyIPv4 : Nat := 2

/-- A kernel chain: name, hook, priority and its installed rules in order. -/
structure KChain where
  name : String
  hook : Nat
  priority : Int
  rules : List Rule
deriving DecidableEq, Repr

/-- A kernel table of a given family with its chains. -/
structure KTable where
  family : Nat
  name : String
  chains : List KChain
deriving DecidableEq, Repr

/-- The kernel's nftables state. -/
structure Kernel where
  tables : List KTable
deriving DecidableEq, Repr

/-- `conn.ListTableOfFamily`: `none` models the ENOENT outcome. -/
def findTable (k : Kernel) (fam : Nat) (name : String) : Option KTable :=
  k.tables.find? (fun t => t.family == fam && t.name == name)

/-- `conn.ListChain` within a given table. -/
def KTable.findChain (t : KTable) (cname : String) : Option KChain :=
  t.chains.find? (fun c => c.name == cname)

/-- `conn.ListChain` resolved from the kernel (ENOENT when the table or the
chain does not exist). -/
def findChain (k : Kernel) (fam : Nat) (tname cname : String) : Option KChain :=
  (findTable k fam tname).bind (fun t => t.findChain cname)

/-- Replace the first list element satisfying `p` by its image under `f`. -/
def updateFirst (p : α → Bool) (f : α → α) : List α → List α
  | [] => []
  | x :: xs => if p x then f x :: xs else x :: updateFirst p f xs

/-- Apply `f` to the (first) table identified by family and name. -/
def updateTable (k : Kernel) (fam : Nat) (tname : String) (f : KTable → KTable) :
    Kernel :=
  ⟨updateFirst (fun t => t.family == fam && t.name == tname) f k.tables⟩

/-- The staged netlink messages of the lazy `nftables.Conn`. -/
inductive Op where
  | addTable (fam : Nat) (tname : String)
  | addChain (fam : Nat) (tname cname : String) (hook : Nat) (priority : Int)
  | flushChain (fam : Nat) (tname cname : String)
  | delChain (fam : Nat) (tname cname : String)
  | addRule (fam : Nat) (tname cname : String) (r : Rule)
  | flushTable (fam : Nat) (tname : String)
  | delTable (fam : Nat) (tname : String)
deriving DecidableEq, Repr

/-- Kernel semantics of one staged message.  (The reconciler only stages
messages whose targets exist at commit time; for other states the model
makes the message a no-op.) -/
def applyOp (k : Kernel) : Op → Kernel
  | .addTable fam tname =>
      if (findTable k fam tname).isSome then k
      else ⟨k.tables ++ [⟨fam, tname, []⟩]⟩
  | .addChain fam tname cname hook priority =>
      updateTable k fam tname
        (fun t => { t with chains := t.chains ++ [⟨cname, hook, priority, []⟩] })
  | .flushChain fam tname cname =>
      updateTable k fam tname
        (fun t => { t with chains := (updateFirst (fun c => c.name == cname)
                      (fun c => { c with rules := [] }) t.chains) })
  | .delChain fam tname cname =>
      updateTable k fam tname
        (fun t => { t with chains := t.chains.filter (fun c => !(c.name == cname)) })
  | .addRule fam tname cname r =>
      updateTable k fam tname
        (fun t => { t with chains := (updateFirst (fun c => c.name == cname)
                      (fun c => { c with rules := c.rules ++ [r] }) t.chains) })
  | .flushTable fam tname =>
      updateTable k fam tname
        (fun t => { t with chains := t.chains.map (fun c => { c with rules := [] }) })
  | .delTable fam tname =>
      ⟨k.tables.filter (fun t => !(t.family == fam && t.name == tname))⟩

/-- `conn.Flush()`: apply the staged messages in order. -/
def commit (k : Kernel) (ops : List Op) : Kernel := ops.foldl applyOp k

/-- Go `nft.Config` as passed to `New` (zero values trigger defaulting). -/
structure NftConfig where
  tableFamily : Nat := 0
  tableName : String := ""
  inputChain : String := ""
  outputChain : String := ""
  chainPriority : Int := 0
deriving DecidableEq, Repr

/-- The resolved connection configuration held by `nft.Conn`. -/
structure ConnCfg where
  family : Nat
  tableName : String
  inputChain : String
  outputChain : String
  priority : Int
deriving DecidableEq, Repr

/-- The defaulting performed by Go `nft.New`: family IPv4, table
"flowmon", chains "input"/"output", priority -300. -/
def NewConn (c : NftConfig) : ConnCfg :=
  { family := if c.tableFamily = 0 then tableFamilyIPv4 else c.tableFamily,
    tableName := if c.tableName = "" then "flowmon" else c.tableName,
    inputChain := if c.inputChain = "" then "input" else c.inputChain,
    outputChain := if c.outputChain = "" then "output" else c.outputChain,
    priority := if c.chainPriority = 0 then -300 else c.chainPriority }

/-- The rule-staging loop of `setupChain`: marshal each counter in order
and stage an `AddRule` for it (any marshal error aborts). -/
def ruleOps (fam : Nat) (tname cname : String) :
    List Counter → Except String (List Op)
  | [] => .ok []
  | c :: rest =>
      (marshalRule tname cname c).bind fun r =>
        (ruleOps fam tname cname rest).bind fun ops =>
          .ok (Op.addRule fam tname cname r :: ops)

/-- `setupChain` + `getOrCreateChain` (replace semantics): if a chain of
the configured name already exists in the kernel, stage a flush and a
delete; then stage a fresh chain with the direction's hook and the
configured priority, followed by the compiled rules in order. -/
def setupChainOps (cfg : ConnCfg) (k : Kernel) (input : Bool)
    (cs : List Counter) : Except String (List Op) :=
  let cname := if input then cfg.inputChain else cfg.outputChain
  let hook := if input then hookInput else hookOutput
  let pre : List Op :=
    match findChain k cfg.family cfg.tableName cname with
    | some _ => [.flushChain cfg.family cfg.tableName cname,
                 .delChain cfg.family cfg.tableName cname]
    | none => []
  (ruleOps cfg.family cfg.tableName cname cs).bind fun rops =>
    .ok (pre ++ [.addChain cfg.family cfg.tableName cname hook cfg.priority] ++ rops)

/-- `Conn.Setup`: get-or-create the table, rebuild both chains with their
compiled rules, and commit the whole batch. -/
def Setup (cfg : ConnCfg) (k : Kernel) (cs : Counters) : Except String Kernel :=
  let tOps : List Op :=
    match findTable k cfg.family cfg.tableName with
    | some _ => []
    | none => [.addTable cfg.family cfg.tableName]
  (setupChainOps cfg k true cs.input).bind fun inOps =>
    (setupChainOps cfg k false cs.output).bind fun outOps =>
      .ok (commit k (tOps ++ inOps ++ outOps))

/-- The decode loop of `listRules`: decode each rule (any failure aborts
the whole call) and tag the decoded spec's direction with the chain name. -/
def decodeRules (cname : String) : List Rule → Except String (List Counter)
  | [] => .ok []
  | r :: rest =>
      match unmarshalRule r with
      | .error e => .error ("unmarshalRule: " ++ e)
      | .ok c =>
          (decodeRules cname rest).bind fun cs =>
            .ok ({ c with dir := cname } :: cs)

/-- The kernel side of `conn.ResetRules`: reading the counters of a chain
atomically zeroes them (read-and-clear). -/
def resetChain (k : Kernel) (fam : Nat) (tname cname : String) : Kernel :=
  updateTable k fam tname
    (fun t => { t with chains := (updateFirst (fun c => c.name == cname)
                  (fun c => { c with rules := (c.rules.map (fun r =>
                    { r with exprs := (r.exprs.map (fun e =>
                        match e with
                        | .counter _ _ => .counter 0 0
                        | e => e)) })) }) t.chains) })

/-- `Conn.ListCounters` (named `ListRules` in one source revision):
resolve the table, then for each direction resolve the chain, read-and-
reset its rules, decode them and tag the direction.  Returns the decoded
counters together with the kernel state after the two resets. -/
def ListCounters (cfg : ConnCfg) (k : Kernel) :
    Except String (Counters × Kernel) :=
  match findTable k cfg.family cfg.tableName with
  | none => .error ("get table " ++ cfg.tableName)
  | some t =>
    match t.findChain cfg.inputChain with
    | none => .error ("get chain " ++ cfg.inputChain)
    | some chIn =>
      (decodeRules cfg.inputChain chIn.rules).bind fun ins =>
        let k₁ := resetChain k cfg.family cfg.tableName cfg.inputChain
        match findChain k₁ cfg.family cfg.tableName cfg.outputChain with
        | none => .error ("get chain " ++ cfg.outputChain)
        | some chOut =>
          (decodeRules cfg.outputChain chOut.rules).bind fun outs =>
            .ok (⟨ins, outs⟩,
                 resetChain k₁ cfg.family cfg.tableName cfg.outputChain)

/-- `Conn.Cleanup`: resolve the table; if absent succeed as a no-op,
otherwise stage a flush and a delete of the table and commit. -/
def Cleanup (cfg : ConnCfg) (k : Kernel) : Except String Kernel :=
  match findTable k cfg.family cfg.tableName with
  | none => .ok k
  | some _ => .ok (commit k [.flushTable cfg.family cfg.tableName,
                             .delTable cfg.family cfg.tableName])

/-! ### Claim-level definitions -/

/-- Shape well-formedness of a spec's non-scalar fields: the modelled
addresses carry byte lists of the right length. -/
def Counter.FieldsWf (c : Counter) : Prop :=
  c.srcAddr.wf ∧ c.dstAddr.wf

/-- A well-formed counter specification: every field within its valid
domain per the data model — addresses of the right shape, protocol one of
the enumerated values, 16-bit ports, ports meaningful only for TCP/UDP,
TCP flags meaningful only for TCP, and the flag set represented
canonically (a subset, in ascending bit order, of the eight flags). -/
def Counter.WellFormed (c : Counter) : Prop :=
  c.srcAddr.wf ∧ c.dstAddr.wf ∧
  (c.protocol = 0 ∨ c.protocol = protocolTCP ∨ c.protocol = protocolUDP ∨
    c.protocol = protocolICMP ∨ c.protocol = protocolICMPv6) ∧
  c.srcPort < 65536 ∧ c.dstPort < 65536 ∧
  (c.srcPort ≠ 0 → c.protocol = protocolTCP ∨ c.protocol = protocolUDP) ∧
  (c.dstPort ≠ 0 → c.protocol = protocolTCP ∨ c.protocol = protocolUDP) ∧
  (c.tcpFlags ≠ [] → c.protocol = protocolTCP) ∧
  c.tcpFlags.Sublist allTcpFlags

instance : ∀ a : Addr, Decidable a.wf
  | .invalid => .isTrue trivial
  | .v4 bs => inferInstanceAs (Decidable (bs.length = 4))
  | .v6 bs => inferInstanceAs (Decidable (bs.length = 16))

instance (c : Counter) : Decidable c.WellFormed := by
  unfold Counter.WellFormed; infer_instance

instance (c : Counter) : Decidable c.FieldsWf := by
  unfold Counter.FieldsWf; infer_instance

/-- Decoder state after the source-address group. -/
def applySrcAddr (c : Counter) (s : UnmarshalState) : UnmarshalState :=
  if c.srcAddr.isValid then
    { s with counter := { s.counter with srcAddr := c.srcAddr },
             regs := regSet s.regs 1 .srcAddr }
  else s

/-- Decoder state after the destination-address group. -/
def applyDstAddr (c : Counter) (s : UnmarshalState) : UnmarshalState :=
  if c.dstAddr.isValid then
    { s with counter := { s.counter with dstAddr := c.dstAddr },
             regs := regSet s.regs 1 .dstAddr }
  else s

/-- Decoder state after the protocol group. -/
def applyProto (c : Counter) (s : UnmarshalState) : UnmarshalState :=
  if 0 < c.protocol then
    { s with counter := { s.counter with protocol := c.protocol },
             regs := regSet s.regs 1 .protocol }
  else s

/-- Decoder state after the source-port group. -/
def applySrcPort (c : Counter) (s : UnmarshalState) : UnmarshalState :=
  if c.srcPort ≠ 0 ∧ (c.protocol = protocolTCP ∨ c.protocol = protocolUDP) then
    { s with counter := { s.counter with srcPort := beUint16 (bePutUint16 c.srcPort) },
             regs := regSet s.regs 1 .srcPort }
  else s

/-- Decoder state after the destination-port group. -/
def applyDstPort (c : Counter) (s : UnmarshalState) : UnmarshalState :=
  if c.dstPort ≠ 0 ∧ (c.protocol = protocolTCP ∨ c.protocol = protocolUDP) then
    { s with counter := { s.counter with dstPort := beUint16 (bePutUint16 c.dstPort) },
             regs := regSet s.regs 1 .dstPort }
  else s

/-- Decoder state after the TCP-flags group. -/
def applyFlags (c : Counter) (s : UnmarshalState) : UnmarshalState :=
  if c.tcpFlags ≠ [] ∧ c.protocol = protocolTCP then
    { s with counter := { s.counter with
               tcpFlags := TcpFlagsFromByte (TcpFlagsToByte c.tcpFlags) },
             regs := regSet s.regs 1 .tcpFlag }
  else s

/-- Decoder state after the trailing `Counter{}` expression. -/
def applyCounterExpr (s : UnmarshalState) : UnmarshalState :=
  { s with counter := { s.counter with packets := 0, bytes := 0 },
           hasCounterExpr := true }

/-- The register-tag transition of one expression on the decoder's
register map, ignoring everything that does not assign a tag. -/
def stepTags (tags : Nat → Option RegisterType) (e : Expr) :
    Nat → Option RegisterType :=
  match e with
  | .meta key register =>
      if key = metaKeyL4PROTO then regSet tags register .protocol else tags
  | .payload d base offset len =>
      match payloadTag base offset len with
      | some t => regSet tags d t
      | none => tags
  | _ => tags

/-- Whether a comparison's data length mismatches the field width expected
for the referenced register's tag (1 byte for protocol and flags, 2 for
ports, 4 or 16 for addresses). -/
def cmpLenBad (t : RegisterType) (d : List Nat) : Prop :=
  match t with
  | .protocol => d.length ≠ 1
  | .srcPort => d.length ≠ 2
  | .dstPort => d.length ≠ 2
  | .tcpFlag => d.length ≠ 1
  | .srcAddr => d.length ≠ 4 ∧ d.length ≠ 16
  | .dstAddr => d.length ≠ 4 ∧ d.length ≠ 16

/-- The conditions under which one expression is rejected, given the
register tags assigned by the preceding expressions of the same rule. -/
def badExpr (tags : Nat → Option RegisterType) (e : Expr) : Prop :=
  match e with
  | .verdict => True
  | .meta key _ => key ≠ metaKeyL4PROTO
  | .payload _ base offset len => payloadTag base offset len = none
  | .cmp _ register d =>
      match tags register with
      | none => True
      | some t => cmpLenBad t d
  | .bitwise _ _ _ _ _ => False
  | .counter _ _ => False

/-- Some expression of the sequence is rejected, the register-tag context
being the fold of `stepTags` over the expressions before it. -/
def badExprs (tags : Nat → Option RegisterType) : List Expr → Prop
  | [] => False
  | e :: rest => badExpr tags e ∨ badExprs (stepTags tags e) rest

/-- Whether an expression is a `Counter` expression. -/
def isCounterE : Expr → Bool
  | .counter _ _ => true
  | _ => false

/-- The rules currently installed in the configured chain of the given
direction (empty when the table or chain does not exist). -/
def chainRulesOf (cfg : ConnCfg) (k : Kernel) (input : Bool) : List Rule :=
  match findChain k cfg.family cfg.tableName
      (if input then cfg.inputChain else cfg.outputChain) with
  | some c => c.rules
  | none => []

/-! ### Lemmas about the TCP flag byte encoding -/

theorem tcpFlag_and_self_iff : ∀ g f : TcpFlag,
    (g.toByte &&& f.toByte ≠ 0 ↔ g = f) := by decide

theorem ne_zero_of_testBit {x i : Nat} (h : x.testBit i = true) : x ≠ 0 :=
  fun h0 => by simp [h0] at h

theorem or_and_ne_zero (a b z : Nat) :
    ((a ||| b) &&& z ≠ 0) ↔ (a &&& z ≠ 0 ∨ b &&& z ≠ 0) := by
  constructor
  · intro h
    obtain ⟨i, hi⟩ := Nat.ne_zero_implies_bit_true h
    simp only [Nat.testBit_and, Nat.testBit_or, Bool.and_eq_true,
      Bool.or_eq_true] at hi
    rcases hi with ⟨ha | hb, hz⟩
    · exact Or.inl (ne_zero_of_testBit (i := i)
        (by simp [Nat.testBit_and, ha, hz]))
    · exact Or.inr (ne_zero_of_testBit (i := i)
        (by simp [Nat.testBit_and, hb, hz]))
  · rintro (h | h) <;>
      obtain ⟨i, hi⟩ := Nat.ne_zero_implies_bit_true h <;>
      simp only [Nat.testBit_and, Bool.and_eq_true] at hi <;>
      exact ne_zero_of_testBit (i := i)
        (by simp [Nat.testBit_and, Nat.testBit_or, hi.1, hi.2])

theorem foldl_or_and (l : List TcpFlag) : ∀ (b : Nat) (f : TcpFlag),
    ((l.foldl (fun acc g => acc ||| g.toByte) b) &&& f.toByte ≠ 0) ↔
      (b &&& f.toByte ≠ 0 ∨ f ∈ l) := by
  induction l with
  | nil => intro b f; simp
  | cons g l ih =>
    intro b f
    simp only [List.foldl_cons]
    rw [ih, or_and_ne_zero, tcpFlag_and_self_iff g f]
    constructor
    · rintro ((h | h) | h)
      · exact Or.inl h
      · exact Or.inr (h ▸ List.mem_cons_self g l)
      · exact Or.inr (List.mem_cons_of_mem g h)
    · rintro (h | h)
      · exact Or.inl (Or.inl h)
      · rcases List.mem_cons.mp h with h | h
        · exact Or.inl (Or.inr h.symm)
        · exact Or.inr h

theorem and_toByte (l : List TcpFlag) (f : TcpFlag) :
    (TcpFlagsToByte l &&& f.toByte ≠ 0) ↔ f ∈ l := by
  have h := foldl_or_and l 0 f
  simpa [TcpFlagsToByte] using h

theorem filter_mem_of_sublist {l L : List TcpFlag} (h : l.Sublist L)
    (hnd : L.Nodup) : L.filter (fun x => decide (x ∈ l)) = l := by
  induction h with
  | slnil => simp
  | @cons l₁ l₂ a h ih =>
    rw [List.nodup_cons] at hnd
    have ha : a ∉ l₁ := fun hin => hnd.1 (h.subset hin)
    simp only [List.filter_cons]
    rw [if_neg (by simpa using ha)]
    exact ih hnd.2
  | @cons₂ l₁ l₂ a h ih =>
    rw [List.nodup_cons] at hnd
    simp only [List.filter_cons]
    rw [if_pos (by simp)]
    have hcongr : ∀ x ∈ l₂, (decide (x ∈ a :: l₁)) = (decide (x ∈ l₁)) := by
      intro x hx
      have hxa : x ≠ a := fun he => hnd.1 (he ▸ hx)
      simp [List.mem_cons, hxa]
    rw [List.filter_congr hcongr, ih hnd.2]

theorem TcpFlagsFromByte_toByte {l : List TcpFlag}
    (h : l.Sublist allTcpFlags) :
    TcpFlagsFromByte (TcpFlagsToByte l) = l := by
  unfold TcpFlagsFromByte
  have hcongr : ∀ f ∈ allTcpFlags,
      (TcpFlagsToByte l &&& f.toByte != 0) = (decide (f ∈ l)) := by
    intro f _
    rw [Bool.eq_iff_iff]
    simp only [bne_iff_ne, ne_eq, decide_eq_true_eq]
    exact and_toByte l f
  rw [List.filter_congr hcongr, filter_mem_of_sublist h (by decide)]

/-! ### Running the decoder over the compiler's output -/

theorem unmarshalExprs_append (xs ys : List Expr) : ∀ s,
    unmarshalExprs s (xs ++ ys) =
      (unmarshalExprs s xs).bind (fun s' => unmarshalExprs s' ys) := by
  induction xs with
  | nil => intro s; simp [unmarshalExprs, Except.bind]
  | cons e xs ih =>
    intro s
    simp only [List.cons_append, unmarshalExprs]
    cases unmarshalExpr s e with
    | error e' => simp [Except.bind]
    | ok s' => simp [Except.bind, ih]

theorem run_srcAddrSeg (c : Counter) (h : c.srcAddr.wf) (s : UnmarshalState) :
    unmarshalExprs s (srcAddrSeg c) = .ok (applySrcAddr c s) := by
  cases ha : c.srcAddr with
  | invalid => simp [srcAddrSeg, applySrcAddr, ha, Addr.isValid, unmarshalExprs]
  | v4 bs =>
    rw [ha] at h
    have hlen : bs.length = 4 := h
    simp [srcAddrSeg, applySrcAddr, ha, Addr.isValid, Addr.is6, Addr.asSlice,
      unmarshalExprs, unmarshalExpr, unmarshalPayload, payloadTag,
      unmarshalCmp, regSet, addrFromSlice, hlen, Except.bind]
  | v6 bs =>
    rw [ha] at h
    have hlen : bs.length = 16 := h
    simp [srcAddrSeg, applySrcAddr, ha, Addr.isValid, Addr.is6, Addr.asSlice,
      unmarshalExprs, unmarshalExpr, unmarshalPayload, payloadTag,
      unmarshalCmp, regSet, addrFromSlice, hlen, Except.bind]

theorem run_dstAddrSeg (c : Counter) (h : c.dstAddr.wf) (s : UnmarshalState) :
    unmarshalExprs s (dstAddrSeg c) = .ok (applyDstAddr c s) := by
  cases ha : c.dstAddr with
  | invalid => simp [dstAddrSeg, applyDstAddr, ha, Addr.isValid, unmarshalExprs]
  | v4 bs =>
    rw [ha] at h
    have hlen : bs.length = 4 := h
    simp [dstAddrSeg, applyDstAddr, ha, Addr.isValid, Addr.is6, Addr.asSlice,
      unmarshalExprs, unmarshalExpr, unmarshalPayload, payloadTag,
      unmarshalCmp, regSet, addrFromSlice, hlen, Except.bind]
  | v6 bs =>
    rw [ha] at h
    have hlen : bs.length = 16 := h
    simp [dstAddrSeg, applyDstAddr, ha, Addr.isValid, Addr.is6, Addr.asSlice,
      unmarshalExprs, unmarshalExpr, unmarshalPayload, payloadTag,
      unmarshalCmp, regSet, addrFromSlice, hlen, Except.bind]

theorem run_protoSeg (c : Counter) (s : UnmarshalState) :
    unmarshalExprs s (protoSeg c) = .ok (applyProto c s) := by
  by_cases hp : 0 < c.protocol <;>
    simp [protoSeg, applyProto, hp, unmarshalExprs, unmarshalExpr,
      unmarshalMeta, metaKeyL4PROTO, unmarshalCmp, regSet, Except.bind]

theorem run_srcPortSeg (c : Counter) (s : UnmarshalState) :
    unmarshalExprs s (srcPortSeg c) = .ok (applySrcPort c s) := by
  by_cases hp : c.srcPort ≠ 0 ∧ (c.protocol = protocolTCP ∨ c.protocol = protocolUDP) <;>
    simp [srcPortSeg, applySrcPort, hp, unmarshalExprs, unmarshalExpr,
      unmarshalPayload, payloadTag, unmarshalCmp, regSet, bePutUint16,
      Except.bind]

theorem run_dstPortSeg (c : Counter) (s : UnmarshalState) :
    unmarshalExprs s (dstPortSeg c) = .ok (applyDstPort c s) := by
  by_cases hp : c.dstPort ≠ 0 ∧ (c.protocol = protocolTCP ∨ c.protocol = protocolUDP) <;>
    simp [dstPortSeg, applyDstPort, hp, unmarshalExprs, unmarshalExpr,
      unmarshalPayload, payloadTag, unmarshalCmp, regSet, bePutUint16,
      Except.bind]

theorem run_flagSeg (c : Counter) (s : UnmarshalState) :
    unmarshalExprs s (flagSeg c) = .ok (applyFlags c s) := by
  by_cases hp : c.tcpFlags ≠ [] ∧ c.protocol = protocolTCP <;>
    simp [flagSeg, applyFlags, hp, unmarshalExprs, unmarshalExpr,
      unmarshalPayload, payloadTag, unmarshalCmp, regSet, Except.bind]

theorem run_counterSeg (s : UnmarshalState) :
    unmarshalExprs s [Expr.counter 0 0] = .ok (applyCounterExpr s) := by
  simp [unmarshalExprs, unmarshalExpr, unmarshalCounter, applyCounterExpr,
    Except.bind]

theorem run_marshal (c : Counter) (h1 : c.srcAddr.wf) (h2 : c.dstAddr.wf) :
    unmarshalExprs initState (marshalExprs c) =
      .ok (applyCounterExpr (applyFlags c (applyDstPort c (applySrcPort c
        (applyProto c (applyDstAddr c (applySrcAddr c initState))))))) := by
  rw [marshalExprs]
  simp only [unmarshalExprs_append, run_srcAddrSeg c h1, run_dstAddrSeg c h2,
    run_protoSeg, run_srcPortSeg, run_dstPortSeg, run_flagSeg, run_counterSeg,
    Except.bind]

theorem applySrcAddr_counter (c : Counter) (s : UnmarshalState) :
    (applySrcAddr c s).counter = { s.counter with
      srcAddr := if c.srcAddr.isValid then c.srcAddr else s.counter.srcAddr } := by
  by_cases h : c.srcAddr.isValid <;> simp [applySrcAddr, h]

theorem applyDstAddr_counter (c : Counter) (s : UnmarshalState) :
    (applyDstAddr c s).counter = { s.counter with
      dstAddr := if c.dstAddr.isValid then c.dstAddr else s.counter.dstAddr } := by
  by_cases h : c.dstAddr.isValid <;> simp [applyDstAddr, h]

theorem applyProto_counter (c : Counter) (s : UnmarshalState) :
    (applyProto c s).counter = { s.counter with
      protocol := if 0 < c.protocol then c.protocol else s.counter.protocol } := by
  by_cases h : 0 < c.protocol <;> simp [applyProto, h]

theorem applySrcPort_counter (c : Counter) (s : UnmarshalState) :
    (applySrcPort c s).counter = { s.counter with
      srcPort := if c.srcPort ≠ 0 ∧ (c.protocol = protocolTCP ∨ c.protocol = protocolUDP)
        then beUint16 (bePutUint16 c.srcPort) else s.counter.srcPort } := by
  by_cases h : c.srcPort ≠ 0 ∧ (c.protocol = protocolTCP ∨ c.protocol = protocolUDP) <;>
    simp [applySrcPort, h]

theorem applyDstPort_counter (c : Counter) (s : UnmarshalState) :
    (applyDstPort c s).counter = { s.counter with
      dstPort := if c.dstPort ≠ 0 ∧ (c.protocol = protocolTCP ∨ c.protocol = protocolUDP)
        then beUint16 (bePutUint16 c.dstPort) else s.counter.dstPort } := by
  by_cases h : c.dstPort ≠ 0 ∧ (c.protocol = protocolTCP ∨ c.protocol = protocolUDP) <;>
    simp [applyDstPort, h]

theorem applyFlags_counter (c : Counter) (s : UnmarshalState) :
    (applyFlags c s).counter = { s.counter with
      tcpFlags := if c.tcpFlags ≠ [] ∧ c.protocol = protocolTCP
        then TcpFlagsFromByte (TcpFlagsToByte c.tcpFlags) else s.counter.tcpFlags } := by
  by_cases h : c.tcpFlags ≠ [] ∧ c.protocol = protocolTCP <;> simp [applyFlags, h]

theorem applyCounterExpr_hasCounter (s : UnmarshalState) :
    (applyCounterExpr s).hasCounterExpr = true := rfl

theorem marshal_decoded_counter (c : Counter) :
    (applyCounterExpr (applyFlags c (applyDstPort c (applySrcPort c
        (applyProto c (applyDstAddr c (applySrcAddr c initState))))))).counter =
      { label := "",
        srcPort := if c.srcPort ≠ 0 ∧ (c.protocol = protocolTCP ∨ c.protocol = protocolUDP)
          then beUint16 (bePutUint16 c.srcPort) else 0,
        dstPort := if c.dstPort ≠ 0 ∧ (c.protocol = protocolTCP ∨ c.protocol = protocolUDP)
          then beUint16 (bePutUint16 c.dstPort) else 0,
        tcpFlags := if c.tcpFlags ≠ [] ∧ c.protocol = protocolTCP
          then TcpFlagsFromByte (TcpFlagsToByte c.tcpFlags) else [],
        protocol := if 0 < c.protocol then c.protocol else 0,
        srcAddr := if c.srcAddr.isValid then c.srcAddr else .invalid,
        dstAddr := if c.dstAddr.isValid then c.dstAddr else .invalid,
        dir := "", packets := 0, bytes := 0 } := by
  simp only [applyCounterExpr, applyFlags_counter, applyDstPort_counter,
    applySrcPort_counter, applyProto_counter, applyDstAddr_counter,
    applySrcAddr_counter, initState]

/-! ### Claim theorems -/

/-- C1: for every well-formed counter specification (each field within its
valid domain: addresses of the modelled shapes, an enumerated protocol,
16-bit ports, ports only with TCP/UDP, flags only with TCP, and the flag
set in its canonical sorted-set representation), decoding the rule
produced by compiling the specification yields the specification back,
except that `packets`/`bytes` are 0 (the spec was not yet installed) and
`direction` is empty (supplied externally, not encoded in the rule). -/
theorem compile_decode_roundtrip (t ch : String) (c : Counter)
    (h : c.WellFormed) :
    (marshalRule t ch c).bind unmarshalRule =
      .ok { c with packets := 0, bytes := 0, dir := "" } := by
  obtain ⟨h1, h2, hp, hsp, hdp, hspp, hdpp, hfp, hsub⟩ := h
  simp only [marshalRule, compiledRule, Except.bind, unmarshalRule]
  rw [run_marshal c h1 h2]
  simp only [Except.bind, applyCounterExpr_hasCounter, if_true]
  rw [marshal_decoded_counter c]
  simp only [Except.ok.injEq, Counter.mk.injEq]
  refine ⟨trivial, ?_, ?_, ?_, ?_, ?_, ?_, trivial, trivial, trivial⟩
  · by_cases hs : c.srcPort = 0
    · simp [hs]
    · rw [if_pos ⟨hs, hspp hs⟩]
      simp only [beUint16, bePutUint16]
      omega
  · by_cases hs : c.dstPort = 0
    · simp [hs]
    · rw [if_pos ⟨hs, hdpp hs⟩]
      simp only [beUint16, bePutUint16]
      omega
  · by_cases hf : c.tcpFlags = []
    · simp [hf]
    · rw [if_pos ⟨hf, hfp hf⟩]
      exact TcpFlagsFromByte_toByte hsub
  · by_cases h0 : 0 < c.protocol
    · simp [h0]
    · simp only [if_neg h0]
      omega
  · cases c.srcAddr <;> simp [Addr.isValid]
  · cases c.dstAddr <;> simp [Addr.isValid]

theorem compile_decode_roundtrip_witness :
    ({ label := "w", dstPort := 8080, tcpFlags := [.syn, .ack], protocol := 6,
       srcAddr := .v4 [10, 0, 0, 1], dir := "input" } : Counter).WellFormed ∧
    (marshalRule "flowmon" "input"
        { label := "w", dstPort := 8080, tcpFlags := [.syn, .ack], protocol := 6,
          srcAddr := .v4 [10, 0, 0, 1], dir := "input" }).bind unmarshalRule =
      .ok { label := "w", dstPort := 8080, tcpFlags := [.syn, .ack], protocol := 6,
            srcAddr := .v4 [10, 0, 0, 1], dir := "" } := by
  refine ⟨by decide, ?_⟩
  have h := compile_decode_roundtrip "flowmon" "input"
    { label := "w", dstPort := 8080, tcpFlags := [.syn, .ack], protocol := 6,
      srcAddr := .v4 [10, 0, 0, 1], dir := "input" } (by decide)
  simpa using h

/-- C2: for every specification with protocol TCP and a non-empty flag
set, the compiled rule ends (just before the trailing counter) with, in
order, a 1-byte payload extraction at transport offset 13 into register 1,
a bitwise mask on register 1 whose mask byte is 0x17 (FIN|SYN|RST|ACK,
regardless of which flags were requested) and whose xor byte is 0x00, and
a compare of register 1 against the single byte that ORs the requested
flag bits. -/
theorem tcp_flags_rule_shape (t ch : String) (c : Counter)
    (hp : c.protocol = protocolTCP) (hf : c.tcpFlags ≠ []) :
    ∃ pre r, marshalRule t ch c = .ok r ∧
      r.exprs = pre ++ [.payload 1 .transport 13 1,
                        .bitwise 1 1 1 [0x17] [0x00],
                        .cmp cmpOpEq 1 [TcpFlagsToByte c.tcpFlags],
                        .counter 0 0] := by
  have hm : TcpFlagsToByte [.fin, .syn, .rst, .ack] = 0x17 := by decide
  refine ⟨srcAddrSeg c ++ dstAddrSeg c ++ protoSeg c ++ srcPortSeg c ++
    dstPortSeg c, _, rfl, ?_⟩
  simp [compiledRule, marshalExprs, flagSeg, hp, hf, hm]

theorem tcp_flags_rule_shape_witness :
    (({ label := "w2", protocol := 6, tcpFlags := [.psh] } : Counter).protocol
        = protocolTCP ∧
      ({ label := "w2", protocol := 6, tcpFlags := [.psh] } : Counter).tcpFlags
        ≠ []) ∧
    ∃ pre r, marshalRule "t" "c"
        { label := "w2", protocol := 6, tcpFlags := [.psh] } = .ok r ∧
      r.exprs = pre ++ [.payload 1 .transport 13 1,
                        .bitwise 1 1 1 [0x17] [0x00],
                        .cmp cmpOpEq 1 [TcpFlagsToByte
                          ({ label := "w2", protocol := 6,
                             tcpFlags := [.psh] } : Counter).tcpFlags],
                        .counter 0 0] :=
  ⟨⟨by decide, by decide⟩,
   tcp_flags_rule_shape "t" "c" _ (by decide) (by decide)⟩

/-- C5: compilation is total — `marshalRule` always returns `.ok` — and
for a (shape-)well-formed spec whose protocol is not TCP or UDP (e.g.
ICMP) even though a source or destination port is set, the compiled rule
contains no transport-header payload extraction and no 2-byte comparison:
the port predicate is silently omitted rather than an error raised. -/
theorem compile_total_port_gating (t ch : String) (c : Counter)
    (hw : c.FieldsWf) (h6 : c.protocol ≠ protocolTCP)
    (h17 : c.protocol ≠ protocolUDP)
    (hport : c.srcPort ≠ 0 ∨ c.dstPort ≠ 0) :
    ∃ r, marshalRule t ch c = .ok r ∧
      ∀ e ∈ r.exprs,
        (match e with
         | .payload _ .transport _ _ => False
         | .cmp _ _ d => d.length ≠ 2
         | _ => True) := by
  obtain ⟨hw1, hw2⟩ := hw
  have hs : srcPortSeg c = [] := by simp [srcPortSeg, h6, h17]
  have hd : dstPortSeg c = [] := by simp [dstPortSeg, h6, h17]
  have hfl : flagSeg c = [] := by simp [flagSeg, h6]
  refine ⟨_, rfl, ?_⟩
  intro e he
  simp only [compiledRule, marshalExprs, hs, hd, hfl, List.append_nil,
    List.mem_append, List.mem_singleton] at he
  rcases he with ((he | he) | he) | he
  · rcases hax : c.srcAddr with _ | bs | bs <;>
      rw [hax] at hw1 <;>
      simp [srcAddrSeg, hax, Addr.isValid, Addr.is6, Addr.asSlice] at he <;>
      rcases he with he | he <;> subst he <;> simp [Addr.wf] at hw1 ⊢ <;> omega
  · rcases hbx : c.dstAddr with _ | bs | bs <;>
      rw [hbx] at hw2 <;>
      simp [dstAddrSeg, hbx, Addr.isValid, Addr.is6, Addr.asSlice] at he <;>
      rcases he with he | he <;> subst he <;> simp [Addr.wf] at hw2 ⊢ <;> omega
  · by_cases hc : 0 < c.protocol <;> simp [protoSeg, hc] at he <;>
      rcases he with he | he <;> subst he <;> simp
  · subst he; simp

theorem compile_total_port_gating_witness :
    (({ label := "w5", protocol := 1, srcPort := 80 } : Counter).FieldsWf ∧
      ({ label := "w5", protocol := 1, srcPort := 80 } : Counter).protocol
        ≠ protocolTCP ∧
      ({ label := "w5", protocol := 1, srcPort := 80 } : Counter).srcPort ≠ 0) ∧
    ∃ r, marshalRule "t" "c"
        { label := "w5", protocol := 1, srcPort := 80 } = .ok r ∧
      ∀ e ∈ r.exprs,
        (match e with
         | .payload _ .transport _ _ => False
         | .cmp _ _ d => d.length ≠ 2
         | _ => True) :=
  ⟨⟨⟨trivial, trivial⟩, by decide, by decide⟩,
   compile_total_port_gating "t" "c" _ ⟨trivial, trivial⟩ (by decide)
     (by decide) (Or.inl (by decide))⟩

/-- C10: decode infers the address family solely from the comparison's
data length and never cross-checks it against the preceding payload
extraction: a 16-byte extraction at the IPv6 source offset followed by a
4-byte compare decodes without error (as an IPv4 address), and a 4-byte
extraction at the IPv4 source offset followed by a 16-byte compare decodes
without error (as an IPv6 address). -/
theorem decode_family_from_data_length (t ch lbl : String)
    (d₄ d₁₆ : List Nat) (h4 : d₄.length = 4) (h16 : d₁₆.length = 16) :
    unmarshalRule ⟨t, ch, [.payload 1 .network 8 16, .cmp cmpOpEq 1 d₄,
        .counter 0 0], some lbl⟩ =
      .ok { label := lbl, srcAddr := .v4 d₄ } ∧
    unmarshalRule ⟨t, ch, [.payload 1 .network 12 4, .cmp cmpOpEq 1 d₁₆,
        .counter 0 0], some lbl⟩ =
      .ok { label := lbl, srcAddr := .v6 d₁₆ } := by
  constructor <;>
    simp [unmarshalRule, unmarshalExprs, unmarshalExpr, unmarshalPayload,
      payloadTag, unmarshalCmp, unmarshalCounter, regSet, addrFromSlice,
      h4, h16, initState, Except.bind]

theorem decode_family_from_data_length_witness :
    ([9, 9, 9, 9].length = 4 ∧ (List.replicate 16 1).length = 16) ∧
    unmarshalRule ⟨"t", "c", [.payload 1 .network 8 16,
        .cmp cmpOpEq 1 [9, 9, 9, 9], .counter 0 0], some "x"⟩ =
      .ok { label := "x", srcAddr := .v4 [9, 9, 9, 9] } ∧
    unmarshalRule ⟨"t", "c", [.payload 1 .network 12 4,
        .cmp cmpOpEq 1 (List.replicate 16 1), .counter 0 0], some "x"⟩ =
      .ok { label := "x", srcAddr := .v6 (List.replicate 16 1) } :=
  ⟨⟨by decide, by decide⟩,
   decode_family_from_data_length "t" "c" "x" [9, 9, 9, 9]
     (List.replicate 16 1) (by decide) (by decide)⟩

/-- C9: every flag list produced by decoding a TCP-flags comparison byte
(`TcpFlagsFromByte`) is in canonical ascending bit order (FIN, SYN, RST,
PSH, ACK, URG, ECE, CWR) with no duplicates, and
`TcpFlagsFromByte (TcpFlagsToByte l)` has exactly the members of `l`:
decode reproduces the requested flag set only up to this canonical
reordering (and deduplication). -/
theorem decoded_flags_canonical :
    ∀ b : Nat, (TcpFlagsFromByte b).Sublist allTcpFlags ∧
      (TcpFlagsFromByte b).Pairwise (fun f g => f.toByte < g.toByte) ∧
      (TcpFlagsFromByte b).Nodup ∧
      ∀ (l : List TcpFlag) (f : TcpFlag),
        (f ∈ TcpFlagsFromByte (TcpFlagsToByte l) ↔ f ∈ l) := by
  intro b
  refine ⟨List.filter_sublist _, ?_, ?_, ?_⟩
  · exact List.Pairwise.sublist (List.filter_sublist _) (by decide)
  · exact List.Nodup.sublist (List.filter_sublist _) (by decide)
  · intro l f
    unfold TcpFlagsFromByte
    rw [List.mem_filter]
    constructor
    · rintro ⟨_, hp⟩
      exact (and_toByte l f).mp (by simpa using hp)
    · intro hf
      refine ⟨by cases f <;> decide, by simpa using (and_toByte l f).mpr hf⟩

/-! ### Characterizing the decoder's failures (C3) -/

theorem unmarshalExpr_err_iff (s : UnmarshalState) (e : Expr) :
    (∃ msg, unmarshalExpr s e = .error msg) ↔ badExpr s.regs e := by
  cases e with
  | meta k reg =>
    by_cases hk : k = metaKeyL4PROTO <;>
      simp [unmarshalExpr, unmarshalMeta, badExpr, hk]
  | payload d base offset len =>
    cases hpt : payloadTag base offset len <;>
      simp [unmarshalExpr, unmarshalPayload, badExpr, hpt]
  | cmp op reg d =>
    cases hreg : s.regs reg with
    | none => simp [unmarshalExpr, unmarshalCmp, badExpr, hreg]
    | some t =>
      cases t with
      | protocol =>
        match d with
        | [] => simp [unmarshalExpr, unmarshalCmp, badExpr, hreg, cmpLenBad]
        | [b] => simp [unmarshalExpr, unmarshalCmp, badExpr, hreg, cmpLenBad]
        | a :: b :: rest =>
          simp [unmarshalExpr, unmarshalCmp, badExpr, hreg, cmpLenBad]
      | tcpFlag =>
        match d with
        | [] => simp [unmarshalExpr, unmarshalCmp, badExpr, hreg, cmpLenBad]
        | [b] => simp [unmarshalExpr, unmarshalCmp, badExpr, hreg, cmpLenBad]
        | a :: b :: rest =>
          simp [unmarshalExpr, unmarshalCmp, badExpr, hreg, cmpLenBad]
      | srcPort =>
        by_cases h2 : d.length = 2 <;>
          simp [unmarshalExpr, unmarshalCmp, badExpr, hreg, cmpLenBad, h2]
      | dstPort =>
        by_cases h2 : d.length = 2 <;>
          simp [unmarshalExpr, unmarshalCmp, badExpr, hreg, cmpLenBad, h2]
      | srcAddr =>
        by_cases h4 : d.length = 4
        · simp [unmarshalExpr, unmarshalCmp, badExpr, hreg, cmpLenBad, h4,
            addrFromSlice]
        · by_cases h16 : d.length = 16 <;>
            simp [unmarshalExpr, unmarshalCmp, badExpr, hreg, cmpLenBad, h4,
              h16, addrFromSlice]
      | dstAddr =>
        by_cases h4 : d.length = 4
        · simp [unmarshalExpr, unmarshalCmp, badExpr, hreg, cmpLenBad, h4,
            addrFromSlice]
        · by_cases h16 : d.length = 16 <;>
            simp [unmarshalExpr, unmarshalCmp, badExpr, hreg, cmpLenBad, h4,
              h16, addrFromSlice]
  | counter p b => simp [unmarshalExpr, unmarshalCounter, badExpr]
  | bitwise a b c m x => simp [unmarshalExpr, badExpr]
  | verdict => simp [unmarshalExpr, badExpr]

theorem unmarshalExpr_ok_state (s : UnmarshalState) (e : Expr)
    (s' : UnmarshalState) (h : unmarshalExpr s e = .ok s') :
    s'.regs = stepTags s.regs e ∧
      s'.hasCounterExpr = (s.hasCounterExpr || isCounterE e) := by
  cases e with
  | meta k reg =>
    by_cases hk : k = metaKeyL4PROTO <;>
      simp [unmarshalExpr, unmarshalMeta, hk] at h <;>
      simp [← h, stepTags, isCounterE, hk]
  | payload d base offset len =>
    cases hpt : payloadTag base offset len <;>
      simp [unmarshalExpr, unmarshalPayload, hpt] at h <;>
      simp [← h, stepTags, isCounterE, hpt]
  | cmp op reg d =>
    cases hreg : s.regs reg with
    | none => simp [unmarshalExpr, unmarshalCmp, hreg] at h
    | some t =>
      cases t with
      | protocol =>
        cases d with
        | nil => simp [unmarshalExpr, unmarshalCmp, hreg] at h
        | cons a d' =>
          cases d' with
          | nil =>
            simp [unmarshalExpr, unmarshalCmp, hreg] at h
            subst h; simp [stepTags, isCounterE]
          | cons b d'' => simp [unmarshalExpr, unmarshalCmp, hreg] at h
      | tcpFlag =>
        cases d with
        | nil => simp [unmarshalExpr, unmarshalCmp, hreg] at h
        | cons a d' =>
          cases d' with
          | nil =>
            simp [unmarshalExpr, unmarshalCmp, hreg] at h
            subst h; simp [stepTags, isCounterE]
          | cons b d'' => simp [unmarshalExpr, unmarshalCmp, hreg] at h
      | srcPort =>
        by_cases h2 : d.length = 2
        · simp [unmarshalExpr, unmarshalCmp, hreg, h2] at h
          subst h; simp [stepTags, isCounterE]
        · simp [unmarshalExpr, unmarshalCmp, hreg, h2] at h
      | dstPort =>
        by_cases h2 : d.length = 2
        · simp [unmarshalExpr, unmarshalCmp, hreg, h2] at h
          subst h; simp [stepTags, isCounterE]
        · simp [unmarshalExpr, unmarshalCmp, hreg, h2] at h
      | srcAddr =>
        by_cases h4 : d.length = 4
        · simp [unmarshalExpr, unmarshalCmp, hreg, h4, addrFromSlice] at h
          subst h; simp [stepTags, isCounterE]
        · by_cases h16 : d.length = 16
          · simp [unmarshalExpr, unmarshalCmp, hreg, h4, h16,
              addrFromSlice] at h
            subst h; simp [stepTags, isCounterE]
          · simp [unmarshalExpr, unmarshalCmp, hreg, h4, h16] at h
      | dstAddr =>
        by_cases h4 : d.length = 4
        · simp [unmarshalExpr, unmarshalCmp, hreg, h4, addrFromSlice] at h
          subst h; simp [stepTags, isCounterE]
        · by_cases h16 : d.length = 16
          · simp [unmarshalExpr, unmarshalCmp, hreg, h4, h16,
              addrFromSlice] at h
            subst h; simp [stepTags, isCounterE]
          · simp [unmarshalExpr, unmarshalCmp, hreg, h4, h16] at h
  | counter p b =>
    simp [unmarshalExpr, unmarshalCounter] at h
    simp [← h, stepTags, isCounterE]
  | bitwise a b c m x =>
    simp [unmarshalExpr] at h
    simp [← h, stepTags, isCounterE]
  | verdict => simp [unmarshalExpr] at h

theorem unmarshalExprs_err_iff (es : List Expr) : ∀ s : UnmarshalState,
    (∃ msg, unmarshalExprs s es = .error msg) ↔ badExprs s.regs es := by
  induction es with
  | nil => intro s; simp [unmarshalExprs, badExprs]
  | cons e rest ih =>
    intro s
    simp only [badExprs]
    cases hE : unmarshalExpr s e with
    | error msg =>
      simp only [unmarshalExprs, hE, Except.bind]
      constructor
      · intro _; exact Or.inl ((unmarshalExpr_err_iff s e).mp ⟨msg, hE⟩)
      · intro _; exact ⟨msg, rfl⟩
    | ok s1 =>
      simp only [unmarshalExprs, hE, Except.bind]
      have hreg := (unmarshalExpr_ok_state s e s1 hE).1
      rw [ih s1, hreg]
      have hnb : ¬ badExpr s.regs e := by
        intro hb
        rcases (unmarshalExpr_err_iff s e).mpr hb with ⟨msg, hmsg⟩
        rw [hE] at hmsg
        cases hmsg
      constructor
      · exact Or.inr
      · rintro (h | h)
        · exact absurd h hnb
        · exact h

theorem unmarshalExprs_ok_hasCounter (es : List Expr) :
    ∀ s s' : UnmarshalState, unmarshalExprs s es = .ok s' →
      s'.hasCounterExpr = (s.hasCounterExpr || es.any isCounterE) := by
  induction es with
  | nil =>
    intro s s' h
    simp [unmarshalExprs] at h
    subst h; simp
  | cons e rest ih =>
    intro s s' h
    cases hE : unmarshalExpr s e with
    | error msg => simp [unmarshalExprs, hE, Except.bind] at h
    | ok s1 =>
      simp only [unmarshalExprs, hE, Except.bind] at h
      have h1 := (unmarshalExpr_ok_state s e s1 hE).2
      rw [ih s1 s' h, h1, List.any_cons]
      cases s.hasCounterExpr <;> cases isCounterE e <;> simp

theorem any_isCounterE (es : List Expr) :
    es.any isCounterE = true ↔ ∃ p b, Expr.counter p b ∈ es := by
  rw [List.any_eq_true]
  constructor
  · rintro ⟨e, he, hc⟩
    cases e <;> simp [isCounterE] at hc
    exact ⟨_, _, he⟩
  · rintro ⟨p, b, hm⟩
    exact ⟨_, hm, rfl⟩

/-- C3 counterexample: a rule whose first expression is a `Bitwise` on
register 1 — a register with no prior semantic assignment in the rule —
followed by a `Counter`, with a comment.  The claim's failure conditions
hold (a `Bitwise` references an unassigned register), yet `unmarshalRule`
succeeds: the decoder ignores `Bitwise` expressions entirely and never
checks their registers, so decode does not fail exactly when the claimed
conditions hold. -/
theorem decode_error_characterization_cex :
    (⟨"t", "c", [.bitwise 1 1 1 [0x17] [0x00], .counter 0 0],
        some "x"⟩ : Rule).exprs.head? =
      some (.bitwise 1 1 1 [0x17] [0x00]) ∧
    unmarshalRule ⟨"t", "c", [.bitwise 1 1 1 [0x17] [0x00], .counter 0 0],
        some "x"⟩ = .ok { label := "x" } := by
  exact ⟨rfl, rfl⟩

/-- C3 (amended): `unmarshalRule` fails exactly when one of these holds:
an expression outside the fixed vocabulary appears; a `Meta` expression
has a key other than L4PROTO; a `Payload` expression has an unsupported
(base, offset, length) combination; a `Cmp` references a register with no
prior semantic assignment in the rule, or its data length mismatches the
field width expected for that register's tag (`Bitwise` expressions are
ignored and never checked); the rule has no `Counter` expression; or the
rule carries no comment.  (`badExpr`/`badExprs` spell out exactly these
conditions.) -/
theorem decode_error_characterization (r : Rule) :
    (∃ msg, unmarshalRule r = .error msg) ↔
      (badExprs (fun _ => none) r.exprs ∨
        (¬ ∃ p b, Expr.counter p b ∈ r.exprs) ∨
        r.comment = none) := by
  have hinit : initState.regs = fun _ => none := rfl
  cases hrun : unmarshalExprs initState r.exprs with
  | error msg =>
    have hbad : badExprs (fun _ => none) r.exprs := by
      rw [← hinit]
      exact (unmarshalExprs_err_iff r.exprs initState).mp ⟨msg, hrun⟩
    simp only [unmarshalRule, hrun, Except.bind]
    exact ⟨fun _ => Or.inl hbad, fun _ => ⟨msg, rfl⟩⟩
  | ok s =>
    have hnbad : ¬ badExprs (fun _ => none) r.exprs := by
      rw [← hinit]
      intro hb
      rcases (unmarshalExprs_err_iff r.exprs initState).mpr hb with ⟨msg, hmsg⟩
      rw [hrun] at hmsg
      cases hmsg
    have hcount : s.hasCounterExpr = r.exprs.any isCounterE := by
      simpa [initState] using unmarshalExprs_ok_hasCounter r.exprs initState s hrun
    simp only [unmarshalRule, hrun, Except.bind]
    cases hc : s.hasCounterExpr with
    | false =>
      have : ¬ ∃ p b, Expr.counter p b ∈ r.exprs := by
        rw [← any_isCounterE, ← hcount, hc]
        simp
      simp only [Bool.false_eq_true, if_false]
      exact ⟨fun _ => Or.inr (Or.inl this), fun _ => ⟨"rule has no counter", rfl⟩⟩
    | true =>
      have hhas : ∃ p b, Expr.counter p b ∈ r.exprs := by
        rw [← any_isCounterE, ← hcount, hc]
      simp only [if_true]
      cases hcm : r.comment with
      | none =>
        simp only []
        exact ⟨fun _ => Or.inr (Or.inr (by trivial)),
               fun _ => ⟨"rule has no comment", rfl⟩⟩
      | some name =>
        simp only []
        constructor
        · rintro ⟨msg, hmsg⟩; cases hmsg
        · rintro (h | h | h)
          · exact absurd h hnbad
          · exact absurd hhas h
          · cases h

/-! ### Lemmas about `updateFirst` / `find?` and the kernel operations -/

theorem find?_updateFirst_same {α} (p : α → Bool) (f : α → α) (l : List α)
    (hpf : ∀ a, p a = true → p (f a) = true) :
    (updateFirst p f l).find? p = (l.find? p).map f := by
  induction l with
  | nil => simp [updateFirst]
  | cons x xs ih =>
    by_cases hx : p x = true
    · simp [updateFirst, hx, List.find?_cons, hpf x hx]
    · simp only [updateFirst, hx, if_false, Bool.false_eq_true]
      rw [List.find?_cons_of_neg _ (by simp [hx]),
        List.find?_cons_of_neg _ (by simp [hx])]
      exact ih

theorem find?_updateFirst_other {α} (p q : α → Bool) (f : α → α) (l : List α)
    (hq : ∀ a, q a = true → p a = false) (hqf : ∀ a, p (f a) = p a) :
    (updateFirst q f l).find? p = l.find? p := by
  induction l with
  | nil => simp [updateFirst]
  | cons x xs ih =>
    by_cases hx : q x = true
    · have hpx : p x = false := hq x hx
      simp only [updateFirst, hx, if_true]
      rw [List.find?_cons_of_neg _ (by simp [hqf, hpx]),
        List.find?_cons_of_neg _ (by simp [hpx])]
    · simp only [updateFirst, hx, if_false, Bool.false_eq_true]
      by_cases hpx : p x = true
      · rw [List.find?_cons_of_pos _ hpx, List.find?_cons_of_pos _ hpx]
      · rw [List.find?_cons_of_neg _ (by simp [hpx]),
          List.find?_cons_of_neg _ (by simp [hpx])]
        exact ih

theorem find?_filter_not {α} (p q : α → Bool) (l : List α)
    (hq : ∀ a, p a = true → q a = false) :
    (l.filter (fun a => !(q a))).find? p = l.find? p := by
  induction l with
  | nil => simp
  | cons x xs ih =>
    by_cases hx : q x = true
    · have hpx : p x = false := by
        cases hp : p x
        · rfl
        · rw [hq x hp] at hx; cases hx
      simp only [List.filter_cons, hx, Bool.not_true, if_false,
        Bool.false_eq_true]
      rw [List.find?_cons_of_neg _ (by simp [hpx])]
      exact ih
    · simp only [List.filter_cons, Bool.not_eq_true', hx, Bool.not_false,
        if_true]
      by_cases hpx : p x = true
      · rw [List.find?_cons_of_pos _ hpx, List.find?_cons_of_pos _ hpx]
      · rw [List.find?_cons_of_neg _ (by simp [hpx]),
          List.find?_cons_of_neg _ (by simp [hpx])]
        exact ih

theorem find?_none_of_filter_not {α} (p : α → Bool) (l : List α) :
    (l.filter (fun a => !(p a))).find? p = none := by
  rw [List.find?_eq_none]
  intro x hx
  rcases List.mem_filter.mp hx with ⟨_, hnx⟩
  simp at hnx
  simp [hnx]

/-- The table predicate used by `findTable` / `updateTable`. -/
theorem findTable_updateTable_same (k : Kernel) (fam : Nat) (tname : String)
    (f : KTable → KTable)
    (hf : ∀ t, (f t).family = t.family ∧ (f t).name = t.name) :
    findTable (updateTable k fam tname f) fam tname =
      (findTable k fam tname).map f := by
  unfold findTable updateTable
  exact find?_updateFirst_same _ f k.tables
    (fun t ht => by
      rcases hf t with ⟨h1, h2⟩
      simpa [h1, h2] using ht)

theorem findTable_addTable_none (k : Kernel) (fam : Nat) (tname : String)
    (h : findTable k fam tname = none) :
    findTable (applyOp k (.addTable fam tname)) fam tname =
      some ⟨fam, tname, []⟩ := by
  simp only [applyOp, h]
  unfold findTable at h ⊢
  simp [List.find?_append, h]

theorem findChain_eq_bind (k : Kernel) (fam : Nat) (tname cname : String) :
    findChain k fam tname cname =
      (findTable k fam tname).bind (fun t => t.findChain cname) := rfl

theorem findChain_addChain_self (k : Kernel) (fam : Nat)
    (tn cn : String) (hk : Nat) (pr : Int) (t : KTable)
    (ht : findTable k fam tn = some t) (hnone : t.findChain cn = none) :
    findChain (applyOp k (.addChain fam tn cn hk pr)) fam tn cn =
      some ⟨cn, hk, pr, []⟩ := by
  rw [findChain_eq_bind]
  simp only [applyOp]
  rw [findTable_updateTable_same _ _ _ _ (by intro t; exact ⟨rfl, rfl⟩), ht]
  simp only [Option.map_some', Option.some_bind]
  unfold KTable.findChain at hnone ⊢
  simp [List.find?_append, hnone]

theorem findChain_addChain_other (k : Kernel) (fam : Nat)
    (tn cn cn' : String) (hk : Nat) (pr : Int) (hne : cn' ≠ cn) :
    findChain (applyOp k (.addChain fam tn cn' hk pr)) fam tn cn =
      findChain k fam tn cn := by
  rw [findChain_eq_bind, findChain_eq_bind]
  simp only [applyOp]
  rw [findTable_updateTable_same _ _ _ _ (by intro t; exact ⟨rfl, rfl⟩)]
  cases findTable k fam tn with
  | none => simp
  | some t =>
    simp only [Option.map_some', Option.some_bind]
    unfold KTable.findChain
    rw [List.find?_append]
    have : List.find? (fun c => c.name == cn)
        [(⟨cn', hk, pr, []⟩ : KChain)] = none := by
      simp [List.find?_cons, hne]
    rw [this, Option.or_none]

theorem findChain_delChain_self (k : Kernel) (fam : Nat) (tn cn : String) :
    findChain (applyOp k (.delChain fam tn cn)) fam tn cn = none := by
  rw [findChain_eq_bind]
  simp only [applyOp]
  rw [findTable_updateTable_same _ _ _ _ (by intro t; exact ⟨rfl, rfl⟩)]
  cases findTable k fam tn with
  | none => simp
  | some t =>
    simp only [Option.map_some', Option.some_bind]
    unfold KTable.findChain
    exact find?_none_of_filter_not _ t.chains

theorem findChain_delChain_other (k : Kernel) (fam : Nat) (tn cn cn' : String)
    (hne : cn' ≠ cn) :
    findChain (applyOp k (.delChain fam tn cn')) fam tn cn =
      findChain k fam tn cn := by
  rw [findChain_eq_bind, findChain_eq_bind]
  simp only [applyOp]
  rw [findTable_updateTable_same _ _ _ _ (by intro t; exact ⟨rfl, rfl⟩)]
  cases findTable k fam tn with
  | none => simp
  | some t =>
    simp only [Option.map_some', Option.some_bind]
    unfold KTable.findChain
    exact find?_filter_not _ _ t.chains
      (fun
        a ha => by
        have hcn : a.name = cn := by simpa using ha
        simp only [hcn, beq_eq_false_iff_ne, ne_eq]
        exact fun h => hne h.symm)

theorem findChain_flushChain_other (k : Kernel) (fam : Nat)
    (tn cn cn' : String) (hne : cn' ≠ cn) :
    findChain (applyOp k (.flushChain fam tn cn')) fam tn cn =
      findChain k fam tn cn := by
  rw [findChain_eq_bind, findChain_eq_bind]
  simp only [applyOp]
  rw [findTable_updateTable_same _ _ _ _ (by intro t; exact ⟨rfl, rfl⟩)]
  cases findTable k fam tn with
  | none => simp
  | some t =>
    simp only [Option.map_some', Option.some_bind]
    unfold KTable.findChain
    exact find?_updateFirst_other _ _ _ t.chains
      (fun
        a ha => by
        have : a.name = cn' := by simpa using ha
        simp [this, hne])
      (fun a => rfl)

theorem findChain_addRule_other (k : Kernel) (fam : Nat)
    (tn cn cn' : String) (r : Rule) (hne : cn' ≠ cn) :
    findChain (applyOp k (.addRule fam tn cn' r)) fam tn cn =
      findChain k fam tn cn := by
  rw [findChain_eq_bind, findChain_eq_bind]
  simp only [applyOp]
  rw [findTable_updateTable_same _ _ _ _ (by intro t; exact ⟨rfl, rfl⟩)]
  cases findTable k fam tn with
  | none => simp
  | some t =>
    simp only [Option.map_some', Option.some_bind]
    unfold KTable.findChain
    exact find?_updateFirst_other _ _ _ t.chains
      (fun
        a ha => by
        have : a.name = cn' := by simpa using ha
        simp [this, hne])
      (fun a => rfl)

theorem findChain_addRule_self (k : Kernel) (fam : Nat) (tn cn : String)
    (r : Rule) (c : KChain) (h : findChain k fam tn cn = some c) :
    findChain (applyOp k (.addRule fam tn cn r)) fam tn cn =
      some { c with rules := c.rules ++ [r] } := by
  rw [findChain_eq_bind] at h
  rcases Option.bind_eq_some.mp h with ⟨t, ht, hc⟩
  rw [findChain_eq_bind]
  simp only [applyOp]
  rw [findTable_updateTable_same _ _ _ _ (by intro t; exact ⟨rfl, rfl⟩), ht]
  simp only [Option.map_some', Option.some_bind]
  unfold KTable.findChain at hc ⊢
  rw [find?_updateFirst_same _ _ t.chains (fun a ha => by simpa using ha), hc]
  rfl

theorem commit_addRules (fam : Nat) (tn cn : String) : ∀ (rs : List Rule)
    (k : Kernel) (c : KChain), findChain k fam tn cn = some c →
    findChain (commit k (rs.map (Op.addRule fam tn cn))) fam tn cn =
      some { c with rules := c.rules ++ rs } := by
  intro rs
  induction rs with
  | nil => intro k c h; simpa [commit] using h
  | cons r rs ih =>
    intro k c h
    simp only [List.map_cons, commit, List.foldl_cons]
    have h1 := findChain_addRule_self k fam tn cn r c h
    have h2 := ih (applyOp k (.addRule fam tn cn r)) _ h1
    simpa using h2

theorem commit_addRules_other (fam : Nat) (tn cn cn' : String)
    (hne : cn' ≠ cn) : ∀ (rs : List Rule) (k : Kernel),
    findChain (commit k (rs.map (Op.addRule fam tn cn'))) fam tn cn =
      findChain k fam tn cn := by
  intro rs
  induction rs with
  | nil => intro k; simp [commit]
  | cons r rs ih =>
    intro k
    simp only [List.map_cons, commit, List.foldl_cons] at ih ⊢
    rw [ih, findChain_addRule_other _ _ _ _ _ _ hne]

theorem ruleOps_eq (fam : Nat) (tn cn : String) : ∀ cs : List Counter,
    ruleOps fam tn cn cs =
      .ok ((cs.map (compiledRule tn cn)).map (Op.addRule fam tn cn)) := by
  intro cs
  induction cs with
  | nil => simp [ruleOps]
  | cons c cs ih => simp [ruleOps, marshalRule, ih, Except.bind]

theorem findTable_updateTable_isSome (k : Kernel) (fam : Nat) (tn : String)
    (f : KTable → KTable)
    (hf : ∀ t, (f t).family = t.family ∧ (f t).name = t.name) :
    (findTable (updateTable k fam tn f) fam tn).isSome =
      (findTable k fam tn).isSome := by
  rw [findTable_updateTable_same _ _ _ _ hf]
  simp

/-- After the replace-semantics preamble, a fresh chain is added and the
compiled rules appended: the chain then holds exactly those rules. -/
theorem stage_chain (fam : Nat) (tn cn : String) (hk : Nat) (pr : Int)
    (rs : List Rule) (k₀ : Kernel) (pre : List Op)
    (hpre : ∃ t₁, findTable (commit k₀ pre) fam tn = some t₁ ∧
      t₁.findChain cn = none) :
    findChain (commit k₀ (pre ++ [Op.addChain fam tn cn hk pr] ++
        rs.map (Op.addRule fam tn cn))) fam tn cn = some ⟨cn, hk, pr, rs⟩ := by
  rcases hpre with ⟨t₁, ht₁, hnone⟩
  have hsplit : commit k₀ (pre ++ [Op.addChain fam tn cn hk pr] ++
      rs.map (Op.addRule fam tn cn)) =
    commit (commit (commit k₀ pre) [Op.addChain fam tn cn hk pr])
      (rs.map (Op.addRule fam tn cn)) := by
    simp [commit, List.foldl_append]
  rw [hsplit]
  have h1 : findChain (commit (commit k₀ pre) [Op.addChain fam tn cn hk pr])
      fam tn cn = some ⟨cn, hk, pr, []⟩ := by
    simpa [commit] using
      findChain_addChain_self (commit k₀ pre) fam tn cn hk pr t₁ ht₁ hnone
  have h2 := commit_addRules fam tn cn rs _ _ h1
  simpa using h2

/-- The whole replace-then-append message block for one chain leaves every
other chain's lookup unchanged. -/
theorem stage_chain_other (fam : Nat) (tn cn cn' : String) (hne : cn' ≠ cn)
    (hk : Nat) (pr : Int) (rs : List Rule) (k₀ : Kernel) (pre : List Op)
    (hpre : pre = [] ∨ pre = [.flushChain fam tn cn', .delChain fam tn cn']) :
    findChain (commit k₀ (pre ++ [Op.addChain fam tn cn' hk pr] ++
        rs.map (Op.addRule fam tn cn'))) fam tn cn = findChain k₀ fam tn cn := by
  have hsplit : commit k₀ (pre ++ [Op.addChain fam tn cn' hk pr] ++
      rs.map (Op.addRule fam tn cn')) =
    commit (commit (commit k₀ pre) [Op.addChain fam tn cn' hk pr])
      (rs.map (Op.addRule fam tn cn')) := by
    simp [commit, List.foldl_append]
  rw [hsplit, commit_addRules_other fam tn cn cn' hne rs]
  have h1 : findChain (commit (commit k₀ pre) [Op.addChain fam tn cn' hk pr])
      fam tn cn = findChain (commit k₀ pre) fam tn cn := by
    simpa [commit] using
      findChain_addChain_other (commit k₀ pre) fam tn cn cn' hk pr hne
  rw [h1]
  rcases hpre with h | h <;> subst h
  · simp [commit]
  · simp only [commit, List.foldl_cons, List.foldl_nil]
    rw [findChain_delChain_other _ _ _ _ _ hne,
      findChain_flushChain_other _ _ _ _ _ hne]

theorem findTable_applyOp_chain_isSome (k : Kernel) (fam : Nat) (tn : String)
    (op : Op)
    (hop : (∃ cn hk pr, op = .addChain fam tn cn hk pr) ∨
      (∃ cn, op = .flushChain fam tn cn) ∨
      (∃ cn, op = .delChain fam tn cn) ∨
      (∃ cn r, op = .addRule fam tn cn r)) :
    (findTable (applyOp k op) fam tn).isSome =
      (findTable k fam tn).isSome := by
  rcases hop with ⟨cn, hk, pr, rfl⟩ | ⟨cn, rfl⟩ | ⟨cn, rfl⟩ | ⟨cn, r, rfl⟩ <;>
    simp only [applyOp] <;>
    exact findTable_updateTable_isSome _ _ _ _ (by intro t; exact ⟨rfl, rfl⟩)

theorem stage_table_isSome (fam : Nat) (tn cn : String) (hk : Nat) (pr : Int)
    (rs : List Rule) (k₀ : Kernel) (pre : List Op)
    (hpre : pre = [] ∨ pre = [.flushChain fam tn cn, .delChain fam tn cn])
    (h : (findTable k₀ fam tn).isSome) :
    (findTable (commit k₀ (pre ++ [Op.addChain fam tn cn hk pr] ++
        rs.map (Op.addRule fam tn cn))) fam tn).isSome := by
  have hadds : ∀ (rs : List Rule) (k : Kernel),
      (findTable k fam tn).isSome →
      (findTable (commit k (rs.map (Op.addRule fam tn cn))) fam tn).isSome := by
    intro rs
    induction rs with
    | nil => intro k hk2; simpa [commit] using hk2
    | cons r rs ih =>
      intro k hk2
      simp only [List.map_cons, commit, List.foldl_cons] at ih ⊢
      apply ih
      rw [findTable_applyOp_chain_isSome _ _ _ _
        (Or.inr (Or.inr (Or.inr ⟨cn, r, rfl⟩)))]
      exact hk2
  have hsplit : commit k₀ (pre ++ [Op.addChain fam tn cn hk pr] ++
      rs.map (Op.addRule fam tn cn)) =
    commit (commit (commit k₀ pre) [Op.addChain fam tn cn hk pr])
      (rs.map (Op.addRule fam tn cn)) := by
    simp [commit, List.foldl_append]
  rw [hsplit]
  apply hadds
  have h2 : commit (commit k₀ pre) [Op.addChain fam tn cn hk pr] =
      applyOp (commit k₀ pre) (.addChain fam tn cn hk pr) := by
    simp [commit]
  rw [h2, findTable_applyOp_chain_isSome _ _ _ _ (Or.inl ⟨cn, hk, pr, rfl⟩)]
  rcases hpre with hp | hp <;> subst hp
  · simpa [commit] using h
  · simp only [commit, List.foldl_cons, List.foldl_nil]
    rw [findTable_applyOp_chain_isSome _ _ _ _ (Or.inr (Or.inr (Or.inl ⟨cn, rfl⟩))),
      findTable_applyOp_chain_isSome _ _ _ _ (Or.inr (Or.inl ⟨cn, rfl⟩))]
    exact h

theorem table_chain_none (k : Kernel) (fam : Nat) (tn cn : String)
    (hs : (findTable k fam tn).isSome = true)
    (hn : findChain k fam tn cn = none) :
    ∃ t₁, findTable k fam tn = some t₁ ∧ t₁.findChain cn = none := by
  rcases Option.isSome_iff_exists.mp hs with ⟨t, ht⟩
  refine ⟨t, ht, ?_⟩
  rw [findChain_eq_bind, ht] at hn
  simpa using hn

/-- One full chain stage (preamble, fresh chain, rule appends) starting
from a kernel whose table exists and, when no preamble was staged, has no
chain of that name: afterwards the chain holds exactly the staged rules,
and the table still exists. -/
theorem setup_stage (fam : Nat) (tn cn : String) (hk : Nat) (pr : Int)
    (rs : List Rule) (k₀ : Kernel) (pre : List Op)
    (hpre : pre = [] ∨ pre = [.flushChain fam tn cn, .delChain fam tn cn])
    (hsome : (findTable k₀ fam tn).isSome = true)
    (hnone : pre = [] → findChain k₀ fam tn cn = none) :
    findChain (commit k₀ (pre ++ [Op.addChain fam tn cn hk pr] ++
        rs.map (Op.addRule fam tn cn))) fam tn cn = some ⟨cn, hk, pr, rs⟩ ∧
    (findTable (commit k₀ (pre ++ [Op.addChain fam tn cn hk pr] ++
        rs.map (Op.addRule fam tn cn))) fam tn).isSome = true := by
  refine ⟨?_, stage_table_isSome fam tn cn hk pr rs k₀ pre hpre hsome⟩
  apply stage_chain
  rcases hpre with hp | hp <;> subst hp
  · exact table_chain_none _ _ _ _ (by simpa [commit] using hsome)
      (by simpa [commit] using hnone rfl)
  · apply table_chain_none
    · simp only [commit, List.foldl_cons, List.foldl_nil]
      rw [findTable_applyOp_chain_isSome _ _ _ _ (Or.inr (Or.inr (Or.inl ⟨cn, rfl⟩))),
        findTable_applyOp_chain_isSome _ _ _ _ (Or.inr (Or.inl ⟨cn, rfl⟩))]
      exact hsome
    · simp only [commit, List.foldl_cons, List.foldl_nil]
      exact findChain_delChain_self _ _ _ _

/-- Both chain stages of one `Setup` call: afterwards each chain holds
exactly its staged rules. -/
theorem setup_two_stages (fam : Nat) (tn inN outN : String)
    (hkIn hkOut : Nat) (pr : Int) (rsIn rsOut : List Rule) (k₀ : Kernel)
    (preIn preOut : List Op) (hne : inN ≠ outN)
    (hpreIn : preIn = [] ∨ preIn = [.flushChain fam tn inN, .delChain fam tn inN])
    (hpreOut : preOut = [] ∨ preOut = [.flushChain fam tn outN, .delChain fam tn outN])
    (hsome : (findTable k₀ fam tn).isSome = true)
    (hInNone : preIn = [] → findChain k₀ fam tn inN = none)
    (hOutNone : preOut = [] → findChain k₀ fam tn outN = none) :
    findChain (commit k₀ ((preIn ++ [Op.addChain fam tn inN hkIn pr] ++
        rsIn.map (Op.addRule fam tn inN)) ++
      (preOut ++ [Op.addChain fam tn outN hkOut pr] ++
        rsOut.map (Op.addRule fam tn outN)))) fam tn inN =
      some ⟨inN, hkIn, pr, rsIn⟩ ∧
    findChain (commit k₀ ((preIn ++ [Op.addChain fam tn inN hkIn pr] ++
        rsIn.map (Op.addRule fam tn inN)) ++
      (preOut ++ [Op.addChain fam tn outN hkOut pr] ++
        rsOut.map (Op.addRule fam tn outN)))) fam tn outN =
      some ⟨outN, hkOut, pr, rsOut⟩ := by
  have hsplit : commit k₀ ((preIn ++ [Op.addChain fam tn inN hkIn pr] ++
      rsIn.map (Op.addRule fam tn inN)) ++
    (preOut ++ [Op.addChain fam tn outN hkOut pr] ++
      rsOut.map (Op.addRule fam tn outN))) =
    commit (commit k₀ (preIn ++ [Op.addChain fam tn inN hkIn pr] ++
        rsIn.map (Op.addRule fam tn inN)))
      (preOut ++ [Op.addChain fam tn outN hkOut pr] ++
        rsOut.map (Op.addRule fam tn outN)) := by
    simp [commit, List.foldl_append]
  obtain ⟨hIn1, hSome1⟩ :=
    setup_stage fam tn inN hkIn pr rsIn k₀ preIn hpreIn hsome hInNone
  have hOutNone1 : preOut = [] →
      findChain (commit k₀ (preIn ++ [Op.addChain fam tn inN hkIn pr] ++
        rsIn.map (Op.addRule fam tn inN))) fam tn outN = none := by
    intro hp
    rw [stage_chain_other fam tn outN inN hne hkIn pr rsIn k₀ preIn hpreIn]
    exact hOutNone hp
  obtain ⟨hOut2, _⟩ :=
    setup_stage fam tn outN hkOut pr rsOut _ preOut hpreOut hSome1 hOutNone1
  rw [hsplit]
  refine ⟨?_, hOut2⟩
  rw [stage_chain_other fam tn inN outN (Ne.symm hne) hkOut pr rsOut _
    preOut hpreOut]
  exact hIn1

/-- After `Setup`, each configured chain holds exactly the compiled rules
of its direction's specs, in order, under the fresh hook and priority. -/
theorem Setup_chains (cfg : ConnCfg) (k : Kernel) (cs : Counters)
    (k' : Kernel) (hne : cfg.inputChain ≠ cfg.outputChain)
    (h : Setup cfg k cs = .ok k') :
    findChain k' cfg.family cfg.tableName cfg.inputChain =
      some ⟨cfg.inputChain, hookInput, cfg.priority,
        cs.input.map (compiledRule cfg.tableName cfg.inputChain)⟩ ∧
    findChain k' cfg.family cfg.tableName cfg.outputChain =
      some ⟨cfg.outputChain, hookOutput, cfg.priority,
        cs.output.map (compiledRule cfg.tableName cfg.outputChain)⟩ := by
  simp only [Setup, setupChainOps, ruleOps_eq, Except.bind, Except.ok.injEq,
    Bool.false_eq_true, if_true, if_false] at h
  rcases htab : findTable k cfg.family cfg.tableName with _ | t
  · -- table absent: both chain lookups are absent, no preambles staged
    have hcin : findChain k cfg.family cfg.tableName cfg.inputChain = none := by
      rw [findChain_eq_bind, htab]; rfl
    have hcout : findChain k cfg.family cfg.tableName cfg.outputChain = none := by
      rw [findChain_eq_bind, htab]; rfl
    simp only [htab, hcin, hcout] at h
    subst h
    have hsplit : ∀ ops : List Op,
        commit k ([Op.addTable cfg.family cfg.tableName] ++ ops) =
          commit (commit k [Op.addTable cfg.family cfg.tableName]) ops := by
      intro ops; simp [commit, List.foldl_append]
    rw [List.append_assoc, hsplit]
    have h0 := findTable_addTable_none k cfg.family cfg.tableName htab
    have h0' : findTable (commit k [Op.addTable cfg.family cfg.tableName])
        cfg.family cfg.tableName = some ⟨cfg.family, cfg.tableName, []⟩ := by
      simpa [commit] using h0
    apply setup_two_stages cfg.family cfg.tableName cfg.inputChain
      cfg.outputChain hookInput hookOutput cfg.priority _ _ _ [] [] hne
      (Or.inl rfl) (Or.inl rfl) (by rw [h0']; rfl)
    · intro _
      rw [findChain_eq_bind, h0']
      rfl
    · intro _
      rw [findChain_eq_bind, h0']
      rfl
  · -- table present: no table op, preambles as staged from existing chains
    simp only [htab] at h
    have htsome : (findTable k cfg.family cfg.tableName).isSome = true := by
      rw [htab]; rfl
    rcases hcin : findChain k cfg.family cfg.tableName cfg.inputChain
        with _ | cin <;>
      rcases hcout : findChain k cfg.family cfg.tableName cfg.outputChain
        with _ | cout <;>
      simp only [hcin, hcout] at h <;>
      subst h <;>
      rw [List.nil_append] <;>
      [apply setup_two_stages cfg.family cfg.tableName cfg.inputChain
        cfg.outputChain hookInput hookOutput cfg.priority _ _ k [] [] hne
        (Or.inl rfl) (Or.inl rfl) htsome;
       apply setup_two_stages cfg.family cfg.tableName cfg.inputChain
        cfg.outputChain hookInput hookOutput cfg.priority _ _ k [] _ hne
        (Or.inl rfl) (Or.inr rfl) htsome;
       apply setup_two_stages cfg.family cfg.tableName cfg.inputChain
        cfg.outputChain hookInput hookOutput cfg.priority _ _ k _ [] hne
        (Or.inr rfl) (Or.inl rfl) htsome;
       apply setup_two_stages cfg.family cfg.tableName cfg.inputChain
        cfg.outputChain hookInput hookOutput cfg.priority _ _ k _ _ hne
        (Or.inr rfl) (Or.inr rfl) htsome] <;>
      first
        | exact fun _ => hcin
        | exact fun _ => hcout
        | (intro hp; cases hp)

theorem findTable_delTable (k : Kernel) (fam : Nat) (tn : String) :
    findTable (applyOp k (.delTable fam tn)) fam tn = none := by
  simp only [applyOp]
  unfold findTable
  exact find?_none_of_filter_not _ k.tables

theorem findChain_resetChain_other (k : Kernel) (fam : Nat)
    (tn cn cn' : String) (hne : cn' ≠ cn) :
    findChain (resetChain k fam tn cn') fam tn cn =
      findChain k fam tn cn := by
  rw [findChain_eq_bind, findChain_eq_bind]
  unfold resetChain
  rw [findTable_updateTable_same _ _ _ _ (by intro t; exact ⟨rfl, rfl⟩)]
  cases findTable k fam tn with
  | none => simp
  | some t =>
    simp only [Option.map_some', Option.some_bind]
    unfold KTable.findChain
    exact find?_updateFirst_other _ _ _ t.chains
      (fun
        a ha => by
        have : a.name = cn' := by simpa using ha
        simp [this, hne])
      (fun a => rfl)

theorem decodeRules_error (cname : String) : ∀ rs : List Rule,
    (∃ r ∈ rs, ∃ e, unmarshalRule r = .error e) →
    ∃ e, decodeRules cname rs = .error e := by
  intro rs
  induction rs with
  | nil => rintro ⟨r, hr, _⟩; cases hr
  | cons r rest ih =>
    rintro ⟨r₀, hr₀, e₀, he₀⟩
    cases hu : unmarshalRule r with
    | error e => exact ⟨"unmarshalRule: " ++ e, by simp [decodeRules, hu]⟩
    | ok c =>
      have hrest : ∃ r' ∈ rest, ∃ e, unmarshalRule r' = .error e := by
        rcases List.mem_cons.mp hr₀ with hh | hmem
        · subst hh; rw [hu] at he₀; cases he₀
        · exact ⟨r₀, hmem, e₀, he₀⟩
      rcases ih hrest with ⟨e, he⟩
      exact ⟨e, by simp [decodeRules, hu, he, Except.bind]⟩

theorem decodeRules_dir (cname : String) : ∀ (rs : List Rule)
    (cs : List Counter), decodeRules cname rs = .ok cs →
    ∀ c ∈ cs, c.dir = cname := by
  intro rs
  induction rs with
  | nil =>
    intro cs h c hc
    simp [decodeRules] at h
    subst h; cases hc
  | cons r rest ih =>
    intro cs h c hc
    cases hu : unmarshalRule r with
    | error e => simp [decodeRules, hu] at h
    | ok c₀ =>
      simp only [decodeRules, hu] at h
      cases hrest : decodeRules cname rest with
      | error e => rw [hrest] at h; cases h
      | ok cs₀ =>
        rw [hrest] at h
        simp only [Except.bind, Except.ok.injEq] at h
        subst h
        rcases List.mem_cons.mp hc with hh | hmem
        · subst hh; rfl
        · exact ih cs₀ hrest c hmem

/-- C4: after `Setup(A)` then `Setup(B)` on the same reconciler, each
configured chain holds exactly B's compiled rules, in B's order: nothing
from the first call survives, because an existing chain of the configured
name is always flushed, deleted and recreated before the new rules are
appended. -/
theorem setup_replace (cfg : ConnCfg) (k : Kernel) (A B : Counters)
    (k₁ k₂ : Kernel) (hne : cfg.inputChain ≠ cfg.outputChain)
    (h1 : Setup cfg k A = .ok k₁) (h2 : Setup cfg k₁ B = .ok k₂) :
    findChain k₂ cfg.family cfg.tableName cfg.inputChain =
      some ⟨cfg.inputChain, hookInput, cfg.priority,
        B.input.map (compiledRule cfg.tableName cfg.inputChain)⟩ ∧
    findChain k₂ cfg.family cfg.tableName cfg.outputChain =
      some ⟨cfg.outputChain, hookOutput, cfg.priority,
        B.output.map (compiledRule cfg.tableName cfg.outputChain)⟩ :=
  Setup_chains cfg k₁ B k₂ hne h2

theorem setup_replace_witness :
    ∃ k₁ k₂ : Kernel,
      ("i" : String) ≠ "o" ∧
      Setup ⟨2, "t", "i", "o", -300⟩ ⟨[]⟩ ⟨[{ label := "a" }], []⟩ = .ok k₁ ∧
      Setup ⟨2, "t", "i", "o", -300⟩ k₁
        ⟨[{ label := "b" }], [{ label := "c" }]⟩ = .ok k₂ ∧
      findChain k₂ 2 "t" "i" =
        some ⟨"i", hookInput, -300,
          [({ label := "b" } : Counter)].map (compiledRule "t" "i")⟩ ∧
      findChain k₂ 2 "t" "o" =
        some ⟨"o", hookOutput, -300,
          [({ label := "c" } : Counter)].map (compiledRule "t" "o")⟩ := by
  refine ⟨_, _, by decide, rfl, rfl, ?_, ?_⟩
  · exact (setup_replace ⟨2, "t", "i", "o", -300⟩ ⟨[]⟩ ⟨[{ label := "a" }], []⟩
      ⟨[{ label := "b" }], [{ label := "c" }]⟩ _ _ (by decide) rfl rfl).1
  · exact (setup_replace ⟨2, "t", "i", "o", -300⟩ ⟨[]⟩ ⟨[{ label := "a" }], []⟩
      ⟨[{ label := "b" }], [{ label := "c" }]⟩ _ _ (by decide) rfl rfl).2

/-- C7: Cleanup is idempotent — when no table of the configured family and
name exists it succeeds without touching the kernel, and after one
successful Cleanup a second call is a no-op that succeeds, because the
first removed the table. -/
theorem cleanup_idempotent (cfg : ConnCfg) :
    (∀ k, findTable k cfg.family cfg.tableName = none →
      Cleanup cfg k = .ok k) ∧
    (∀ k k', Cleanup cfg k = .ok k' → Cleanup cfg k' = .ok k') := by
  constructor
  · intro k h
    simp [Cleanup, h]
  · intro k k' h
    rcases ht : findTable k cfg.family cfg.tableName with _ | t
    · simp only [Cleanup, ht, Except.ok.injEq] at h
      subst h
      simp [Cleanup, ht]
    · simp only [Cleanup, ht, Except.ok.injEq] at h
      have hnone : findTable k' cfg.family cfg.tableName = none := by
        rw [← h]
        simp only [commit, List.foldl_cons, List.foldl_nil]
        exact findTable_delTable _ _ _
      simp [Cleanup, hnone]

theorem cleanup_idempotent_witness :
    (findTable ⟨[]⟩ 2 "t" = none ∧
      Cleanup ⟨2, "t", "i", "o", -300⟩ ⟨[]⟩ = .ok ⟨[]⟩) ∧
    (Cleanup ⟨2, "t", "i", "o", -300⟩ ⟨[⟨2, "t", []⟩]⟩ = .ok ⟨[]⟩ ∧
      Cleanup ⟨2, "t", "i", "o", -300⟩ ⟨[]⟩ = .ok ⟨[]⟩) := by
  refine ⟨⟨by decide, (cleanup_idempotent _).1 ⟨[]⟩ (by decide)⟩,
    ⟨rfl, (cleanup_idempotent _).2 ⟨[⟨2, "t", []⟩]⟩ ⟨[]⟩ rfl⟩⟩

/-- C6: if any single rule in either monitored chain fails to decode, the
whole `ListCounters` call fails: no counters are returned for any rule
(no per-rule skip). -/
theorem list_counters_fail_whole (cfg : ConnCfg) (k : Kernel)
    (hne : cfg.inputChain ≠ cfg.outputChain)
    (h : (∃ r ∈ chainRulesOf cfg k true, ∃ e, unmarshalRule r = .error e) ∨
      (∃ r ∈ chainRulesOf cfg k false, ∃ e, unmarshalRule r = .error e)) :
    ∃ e, ListCounters cfg k = .error e := by
  simp only [chainRulesOf, eq_self_iff_true, if_true, Bool.false_eq_true,
    if_false] at h
  rcases htab : findTable k cfg.family cfg.tableName with _ | t
  · exact ⟨"get table " ++ cfg.tableName, by simp [ListCounters, htab]⟩
  · rcases hchin : t.findChain cfg.inputChain with _ | chIn
    · exact ⟨"get chain " ++ cfg.inputChain,
        by simp [ListCounters, htab, hchin]⟩
    · have hfcIn : findChain k cfg.family cfg.tableName cfg.inputChain =
          some chIn := by
        rw [findChain_eq_bind, htab]
        simpa using hchin
      cases hdec : decodeRules cfg.inputChain chIn.rules with
      | error e =>
        exact ⟨e, by simp [ListCounters, htab, hchin, hdec, Except.bind]⟩
      | ok ins =>
        rcases h with h | h
        · simp only [hfcIn] at h
          rcases decodeRules_error cfg.inputChain chIn.rules h with ⟨e, he⟩
          rw [hdec] at he
          cases he
        · rcases hout : findChain k cfg.family cfg.tableName cfg.outputChain
              with _ | chOut
          · simp only [hout] at h
            rcases h with ⟨r, hr, _⟩
            cases hr
          · simp only [hout] at h
            have h₁ : findChain (resetChain k cfg.family cfg.tableName
                cfg.inputChain) cfg.family cfg.tableName cfg.outputChain =
                some chOut := by
              rw [findChain_resetChain_other _ _ _ _ _ hne]
              exact hout
            rcases decodeRules_error cfg.outputChain chOut.rules h with ⟨e, he⟩
            exact ⟨e, by simp [ListCounters, htab, hchin, hdec, h₁, he,
              Except.bind]⟩

theorem list_counters_fail_whole_witness :
    (("i" : String) ≠ "o" ∧
      (∃ r ∈ chainRulesOf ⟨2, "t", "i", "o", -300⟩
          ⟨[⟨2, "t", [⟨"i", 1, -300, [⟨"t", "i", [.counter 0 0], none⟩]⟩,
            ⟨"o", 3, -300, []⟩]⟩]⟩ true,
        ∃ e, unmarshalRule r = .error e)) ∧
    ∃ e, ListCounters ⟨2, "t", "i", "o", -300⟩
        ⟨[⟨2, "t", [⟨"i", 1, -300, [⟨"t", "i", [.counter 0 0], none⟩]⟩,
          ⟨"o", 3, -300, []⟩]⟩]⟩ = .error e := by
  refine ⟨⟨by decide, ⟨⟨"t", "i", [.counter 0 0], none⟩, by decide,
    "rule has no comment", rfl⟩⟩, ?_⟩
  exact list_counters_fail_whole _ _ (by decide)
    (Or.inl ⟨⟨"t", "i", [.counter 0 0], none⟩, by decide,
      "rule has no comment", rfl⟩)

/-- C8 counterexample: with a configuration whose chain names are not the
defaults (input chain "in", output chain "out"), a rule read back from the
input-hook chain is tagged with direction "in", not "input": as stated,
the claim fails for this reconciler configuration. -/
theorem dir_tag_cex :
    ListCounters (NewConn ⟨2, "t", "in", "out", -300⟩)
        ⟨[⟨2, "t", [⟨"in", 1, -300, [⟨"t", "in", [.counter 0 0], some "x"⟩]⟩,
          ⟨"out", 3, -300, []⟩]⟩]⟩ =
      .ok (⟨[{ label := "x", dir := "in" }], []⟩,
        ⟨[⟨2, "t", [⟨"in", 1, -300, [⟨"t", "in", [.counter 0 0], some "x"⟩]⟩,
          ⟨"out", 3, -300, []⟩]⟩]⟩) ∧
    ("in" : String) ≠ "input" := ⟨rfl, by decide⟩

/-- C8 (amended): the direction of a decoded specification is never
encoded in the rule's expressions — compilation ignores the `dir` field
entirely — and for every rule returned by `ListCounters` the direction
field equals the configured name of the chain the rule was read from (the
input-hook chain's name for the input list, the output-hook chain's name
for the output list; these default to "input" and "output" under `New`'s
defaulting, and the application never overrides them). -/
theorem dir_tag_from_chain (cfgIn : NftConfig) (k : Kernel)
    (res : Counters) (k' : Kernel)
    (hl : ListCounters (NewConn cfgIn) k = .ok (res, k')) :
    (∀ t ch c d, marshalRule t ch c = marshalRule t ch { c with dir := d }) ∧
    (∀ c ∈ res.input, c.dir = (NewConn cfgIn).inputChain) ∧
    (∀ c ∈ res.output, c.dir = (NewConn cfgIn).outputChain) := by
  refine ⟨fun t ch c d => rfl, ?_⟩
  rcases htab : findTable k (NewConn cfgIn).family (NewConn cfgIn).tableName
      with _ | t
  · rw [ListCounters, htab] at hl; cases hl
  · rcases hchin : t.findChain (NewConn cfgIn).inputChain with _ | chIn
    · rw [ListCounters, htab] at hl
      simp only [hchin] at hl
      cases hl
    · cases hdin : decodeRules (NewConn cfgIn).inputChain chIn.rules with
      | error e =>
        rw [ListCounters, htab] at hl
        simp only [hchin, hdin, Except.bind] at hl
        cases hl
      | ok ins =>
        rcases hcout : findChain (resetChain k (NewConn cfgIn).family
            (NewConn cfgIn).tableName (NewConn cfgIn).inputChain)
            (NewConn cfgIn).family (NewConn cfgIn).tableName
            (NewConn cfgIn).outputChain with _ | chOut
        · rw [ListCounters, htab] at hl
          simp only [hchin, hdin, Except.bind, hcout] at hl
          cases hl
        · cases hdout : decodeRules (NewConn cfgIn).outputChain chOut.rules with
          | error e =>
            rw [ListCounters, htab] at hl
            simp only [hchin, hdin, Except.bind, hcout, hdout] at hl
            cases hl
          | ok outs =>
            rw [ListCounters, htab] at hl
            simp only [hchin, hdin, Except.bind, hcout, hdout,
              Except.ok.injEq, Prod.mk.injEq] at hl
            obtain ⟨hres, _⟩ := hl
            subst hres
            exact ⟨decodeRules_dir _ _ _ hdin, decodeRules_dir _ _ _ hdout⟩

theorem dir_tag_from_chain_witness :
    ListCounters (NewConn ⟨2, "t", "", "", -300⟩)
        ⟨[⟨2, "t", [⟨"input", 1, -300, [⟨"t", "input", [.counter 0 0],
            some "x"⟩]⟩, ⟨"output", 3, -300, []⟩]⟩]⟩ =
      .ok (⟨[{ label := "x", dir := "input" }], []⟩,
        ⟨[⟨2, "t", [⟨"input", 1, -300, [⟨"t", "input", [.counter 0 0],
            some "x"⟩]⟩, ⟨"output", 3, -300, []⟩]⟩]⟩) ∧
    (∀ t ch c d, marshalRule t ch c = marshalRule t ch { c with dir := d }) ∧
    (∀ c ∈ ({ label := "x", dir := "input" } : Counter) ::
        ([] : List Counter), c.dir = (NewConn ⟨2, "t", "", "", -300⟩).inputChain) := by
  refine ⟨rfl, ?_, ?_⟩
  · exact (dir_tag_from_chain ⟨2, "t", "", "", -300⟩
      ⟨[⟨2, "t", [⟨"input", 1, -300, [⟨"t", "input", [.counter 0 0],
            some "x"⟩]⟩, ⟨"output", 3, -300, []⟩]⟩]⟩ _ _ rfl).1
  · exact (dir_tag_from_chain ⟨2, "t", "", "", -300⟩
      ⟨[⟨2, "t", [⟨"input", 1, -300, [⟨"t", "input", [.counter 0 0],
            some "x"⟩]⟩, ⟨"output", 3, -300, []⟩]⟩]⟩ _ _ rfl).2.1

end Flowmon
